import Mathlib

/-!
# Tic-Tac-Toe (TicTacToe.cpp): board, standard rules and the turn loop

A shallow embedding of `Symbol`, `Board`, `StandardRules`, `Player`, `Game` and
`GameFactory`.

Modelling conventions:

* A `Symbol*` is an address (`SymbolPtr`).  The source compares cells with
  `==` / `!=` on `Symbol*`, i.e. on addresses; the character of a symbol is
  only read through `Symbol::getValue` and lives in a `SymbolHeap`.
* `int` values are `Int`; the code performs no arithmetic on them that can
  overflow for a board that fits in memory.
* `vector<vector<Symbol*>>` is a `List (List SymbolPtr)`.  `Board` carries the
  class invariant established by its constructor (the grid is
  `dimension × dimension`); every `grid[row][col]` in the embedding is
  an in-range `List.get`, justified by the bounds guard in front of it.
* A counted loop `for (int i = 0; i < n; i++)` is a function of the current
  index and the number of iterations still to run (`n - i`), called with
  index `0` and `n` iterations; `break` and `return` end the recursion.
* `Player*` and `IObserver*` are addresses too.  `World` holds what the
  methods of `Game` read and write: the `Game` object, the `Player` objects
  behind the pointers in its deque, and the `update` calls its observers have
  received.
* Console output (`cout`, `Board::display`) is not modelled.
* `Player::score` is an unbounded `Int`: `score++` is modelled away from
  `INT_MAX`, where the source has no defined behaviour.
-/

namespace TicTacToe

/-! ## Symbol -/

/-- A `Symbol*`: the address of a `Symbol` object.  `==` on two `Symbol*`
compares addresses. -/
abbrev SymbolPtr := Nat

/-- Failures raised while constructing an object. -/
inductive Exn where
  /-- Raised by `std::vector(count, value)` when the count exceeds `max_size()`. -/
  | lengthError
  deriving DecidableEq, Repr

/-! ## Board -/

/-- The class `Board`: the private fields `grid`, `dimension`, `emptySymbol`, and
the class invariant set up by the constructor (never broken by a method): the
grid has `dimension` rows of `dimension` cells. -/
structure Board where
  grid : List (List SymbolPtr)
  dimension : Int
  emptySymbol : SymbolPtr
  rows_ok : (grid.length : Int) = dimension
  cols_ok : ∀ r ∈ grid, (r.length : Int) = dimension
  deriving DecidableEq

namespace Board

/-- The guard `row < 0 || row >= dimension || col < 0 || col >= dimension`. -/
def outOfRange (b : Board) (row col : Int) : Prop :=
  row < 0 ∨ row ≥ b.dimension ∨ col < 0 ∨ col ≥ b.dimension

instance (b : Board) (row col : Int) : Decidable (b.outOfRange row col) :=
  inferInstanceAs (Decidable (row < 0 ∨ row ≥ b.dimension ∨ col < 0 ∨ col ≥ b.dimension))

/-- The row `grid[row]`, evaluated behind a false bounds guard. -/
def rowAt (b : Board) (row col : Int) (h : ¬ b.outOfRange row col) : List SymbolPtr :=
  b.grid.get ⟨row.toNat, by have := b.rows_ok; unfold outOfRange at h; omega⟩

/-- The expression `grid[row][col]`, evaluated behind a false bounds guard. -/
def cell (b : Board) (row col : Int) (h : ¬ b.outOfRange row col) : SymbolPtr :=
  (b.rowAt row col h).get ⟨col.toNat, by
    have := b.cols_ok _ (List.get_mem b.grid row.toNat
      (by have := b.rows_ok; unfold outOfRange at h; omega))
    unfold rowAt outOfRange at *; omega⟩

/-- The constructor `Board(int dim)`.  `fresh` is the address returned by
`new Symbol('-')`.  `vector<Symbol*>(dimension, emptySymbol)` takes its count as
`size_t`: a negative `int` converts to a count above `max_size()` and the
vector constructor throws `std::length_error`; the source has no check of its
own.  For `dim ≥ 0` the grid is `dim` rows of `dim` copies of `emptySymbol`. -/
def new (dim : Int) (fresh : SymbolPtr) : Except Exn Board :=
  if h : dim < 0 then .error .lengthError
  else .ok
    { grid := List.replicate dim.toNat (List.replicate dim.toNat fresh)
      dimension := dim
      emptySymbol := fresh
      rows_ok := by simp; omega
      cols_ok := by
        intro r hr
        rw [List.eq_of_mem_replicate hr]
        simp; omega }

/-- The method `isCellEmpty(row, col)`. -/
def isCellEmpty (b : Board) (row col : Int) : Bool :=
  if h : b.outOfRange row col then false
  else b.cell row col h == b.emptySymbol

/-- The method `getCell(row, col)`. -/
def getCell (b : Board) (row col : Int) : SymbolPtr :=
  if h : b.outOfRange row col then b.emptySymbol
  else b.cell row col h

/-- The method `getSize()`. -/
def getSize (b : Board) : Int := b.dimension

/-- The method `getEmptySymbol()`. -/
def getEmptySymbol (b : Board) : SymbolPtr := b.emptySymbol

/-- The assignment `grid[row][col] = symbol`, behind a false bounds guard. -/
def assign (b : Board) (row col : Int) (symbol : SymbolPtr) (h : ¬ b.outOfRange row col) :
    Board :=
  { grid := b.grid.set row.toNat ((b.rowAt row col h).set col.toNat symbol)
    dimension := b.dimension
    emptySymbol := b.emptySymbol
    rows_ok := by simpa using b.rows_ok
    cols_ok := by
      intro r hr
      rcases List.mem_or_eq_of_mem_set hr with hm | he
      · exact b.cols_ok r hm
      · subst he
        simpa [rowAt] using b.cols_ok _ (List.get_mem b.grid row.toNat
          (by have := b.rows_ok; unfold outOfRange at h; omega)) }

/-- The method `placeSymbol(row, col, symbol)`: the returned flag and the board
after the call. -/
def placeSymbol (b : Board) (row col : Int) (symbol : SymbolPtr) : Bool × Board :=
  if h : b.outOfRange row col then (false, b)
  else if !b.isCellEmpty row col then (false, b)
  else (true, b.assign row col symbol h)

end Board

/-! ## StandardRules -/

namespace StandardRules

/-- The override `isValidMove(board, row, col)`. -/
def isValidMove (board : Board) (row col : Int) : Bool :=
  board.isCellEmpty row col

/-- The inner loop of the row family, `for (j ...) if (getCell(i, j) != symbol)
{ win = false; break; }`: the value of `win` when the loop is left, entered at
index `j` with `k` iterations to run. -/
def rowScan (board : Board) (symbol : SymbolPtr) (i : Int) : Int → Nat → Bool
  | _, 0 => true
  | j, k + 1 =>
    if board.getCell i j != symbol then false
    else rowScan board symbol i (j + 1) k

/-- The first outer loop, `for (i ...) { win = true; ...; if (win) return true; }`:
true when an iteration returns true, entered at row `i` with `k` rows to go. -/
def rowsLoop (board : Board) (symbol : SymbolPtr) (n : Int) : Int → Nat → Bool
  | _, 0 => false
  | i, k + 1 =>
    if rowScan board symbol i 0 n.toNat then true
    else rowsLoop board symbol n (i + 1) k

/-- The inner loop of the column family, `for (i ...) if (getCell(i, j) != symbol)
{ win = false; break; }`. -/
def colScan (board : Board) (symbol : SymbolPtr) (j : Int) : Int → Nat → Bool
  | _, 0 => true
  | i, k + 1 =>
    if board.getCell i j != symbol then false
    else colScan board symbol j (i + 1) k

/-- The second outer loop, over the columns `j`. -/
def colsLoop (board : Board) (symbol : SymbolPtr) (n : Int) : Int → Nat → Bool
  | _, 0 => false
  | j, k + 1 =>
    if colScan board symbol j 0 n.toNat then true
    else colsLoop board symbol n (j + 1) k

/-- The main-diagonal loop, `for (i ...) if (getCell(i, i) != symbol) { win = false;
break; }`, with `win` true on entry. -/
def diagScan (board : Board) (symbol : SymbolPtr) : Int → Nat → Bool
  | _, 0 => true
  | i, k + 1 =>
    if board.getCell i i != symbol then false
    else diagScan board symbol (i + 1) k

/-- The anti-diagonal loop, `for (i ...) if (getCell(i, n - 1 - i) != symbol)
{ win = false; break; }`, with `win` true on entry. -/
def antiScan (board : Board) (symbol : SymbolPtr) (n : Int) : Int → Nat → Bool
  | _, 0 => true
  | i, k + 1 =>
    if board.getCell i (n - 1 - i) != symbol then false
    else antiScan board symbol n (i + 1) k

/-- The override `hasWinner(board, symbol)`. -/
def hasWinner (board : Board) (symbol : SymbolPtr) : Bool :=
  let n := board.getSize
  if rowsLoop board symbol n 0 n.toNat then true
  else if colsLoop board symbol n 0 n.toNat then true
  else if diagScan board symbol 0 n.toNat then true
  else antiScan board symbol n 0 n.toNat

/-- The inner loop of `isDraw`, `for (j ...) if (getCell(i, j) == getEmptySymbol())
return false;`: true when the loop runs to its end without returning. -/
def drawScan (board : Board) (i : Int) : Int → Nat → Bool
  | _, 0 => true
  | j, k + 1 =>
    if board.getCell i j == board.getEmptySymbol then false
    else drawScan board i (j + 1) k

/-- The outer loop of `isDraw`: true when no iteration returns false. -/
def drawLoop (board : Board) (n : Int) : Int → Nat → Bool
  | _, 0 => true
  | i, k + 1 =>
    if drawScan board i 0 n.toNat then drawLoop board n (i + 1) k
    else false

/-- The override `isDraw(board)`. -/
def isDraw (board : Board) : Bool :=
  let n := board.getSize
  drawLoop board n 0 n.toNat

end StandardRules

/-! ## Player -/

/-- The class `Player`. -/
structure Player where
  id : Int
  name : String
  symbol : SymbolPtr
  score : Int
  deriving DecidableEq, Repr

namespace Player

/-- The constructor `Player(id, name, symbol)`. -/
def new (id : Int) (name : String) (symbol : SymbolPtr) : Player :=
  { id := id, name := name, symbol := symbol, score := 0 }

/-- The accessor `getName()`. -/
def getName (p : Player) : String := p.name

/-- The accessor `getSymbol()`. -/
def getSymbol (p : Player) : SymbolPtr := p.symbol

/-- The accessor `getScore()`. -/
def getScore (p : Player) : Int := p.score

/-- The method `incrementScore()`, `score++`. -/
def incrementScore (p : Player) : Player := { p with score := p.score + 1 }

end Player

/-- A `Player*`: the address of a `Player` object. -/
abbrev PlayerPtr := Nat

/-- An `IObserver*`: the address of an observer. -/
abbrev ObserverPtr := Nat

/-! ## Game -/

/-- The class `Game`.  Its `rules` field always points to a `StandardRules`
object, so the calls through it are calls of `StandardRules`. -/
structure Game where
  board : Board
  players : List PlayerPtr
  observers : List ObserverPtr
  finished : Bool

/-- The program state the methods of `Game` act on: the `Game` object, the
`Player` object at each address, and the `update(message)` calls made so far,
oldest first, each with the observer that received it. -/
structure World where
  game : Game
  playerAt : PlayerPtr → Player
  updates : List (ObserverPtr × String)

/-- The text `std::to_string` gives for an `int`. -/
def to_string (v : Int) : String := toString v

namespace Game

/-- The constructor `Game(int size)`; `fresh` is the address `new Symbol` returns
inside `Board(size)`. -/
def new (size : Int) (fresh : SymbolPtr) : Except Exn Game :=
  match Board.new size fresh with
  | .error e => .error e
  | .ok board => .ok { board := board, players := [], observers := [], finished := false }

/-- The method `addPlayer(player)`. -/
def addPlayer (g : Game) (player : PlayerPtr) : Game :=
  { g with players := g.players ++ [player] }

/-- The method `addObserver(observer)`. -/
def addObserver (g : Game) (observer : ObserverPtr) : Game :=
  { g with observers := g.observers ++ [observer] }

/-- The method `notify(message)`: one `update(message)` per observer, in the order
of the `observers` vector. -/
def notify (w : World) (message : String) : World :=
  { w with updates := w.updates ++ w.game.observers.map (fun obs => (obs, message)) }

/-- One iteration of the `while (!finished)` loop of `play()`, with `(row, col)` the
pair read from `cin`.  `none` stands for `players.front()` on an empty deque,
which has no defined behaviour. -/
def turn (w : World) (row col : Int) : Option World :=
  match w.game.players with
  | [] => none
  | current :: rest =>
    let p := w.playerAt current
    if StandardRules.isValidMove w.game.board row col then
      let board := (w.game.board.placeSymbol row col p.getSymbol).2
      let w1 : World := { w with game := { w.game with board := board } }
      let w2 := notify w1
        (p.getName ++ " played at (" ++ to_string row ++ "," ++ to_string col ++ ").")
      if StandardRules.hasWinner board p.getSymbol then
        let w3 : World :=
          { w2 with playerAt := Function.update w2.playerAt current p.incrementScore }
        let w4 := notify w3 (p.getName ++ " has won the game.")
        some { w4 with game := { w4.game with finished := true } }
      else if StandardRules.isDraw board then
        let w3 := notify w2 "The game ended in a draw."
        some { w3 with game := { w3.game with finished := true } }
      else
        some { w2 with game := { w2.game with players := rest ++ [current] } }
    else
      some w

/-- The `while (!finished)` loop of `play()`, fed the pairs that `cin >> row >> col`
reads, in order.  The result is the state in which the loop is left, or in
which it waits for input that does not come, and the pairs not read. -/
def loop (w : World) : List (Int × Int) → Option (World × List (Int × Int))
  | [] => some (w, [])
  | (row, col) :: rest =>
    if w.game.finished then some (w, (row, col) :: rest)
    else
      match turn w row col with
      | none => none
      | some w1 => loop w1 rest

/-- The method `play()`. -/
def play (w : World) (input : List (Int × Int)) : Option (World × List (Int × Int)) :=
  if w.game.players.length < 2 then some (w, input)
  else loop (notify w "Game started.") input

end Game

/-- The enum `GameType`. -/
inductive GameType where
  | STANDARD
  deriving DecidableEq, Repr

namespace GameFactory

/-- The static method `GameFactory::create(type, size)`; `none` is `nullptr`. -/
def create (type : GameType) (size : Int) (fresh : SymbolPtr) : Except Exn (Option Game) :=
  if type = GameType.STANDARD then
    match Game.new size fresh with
    | .error e => .error e
    | .ok g => .ok (some g)
  else .ok none

end GameFactory

/-! ## Loop schemes used in the proofs -/

/-- Every index among the `k` indices from `i` on passes the test `p`. -/
def allFrom (p : Int → Bool) : Int → Nat → Bool
  | _, 0 => true
  | i, k + 1 => if p i then allFrom p (i + 1) k else false

/-- Some index among the `k` indices from `i` on passes the test `p`. -/
def anyFrom (p : Int → Bool) : Int → Nat → Bool
  | _, 0 => false
  | i, k + 1 => if p i then true else anyFrom p (i + 1) k

/-! ## Concrete boards

Address `0` is the empty symbol of these boards, address `1` the marker of a
player X and address `2` the marker of a player O. -/

/-- The 3×3 board holding X at (0,0), (0,1), (0,2) and nothing else. -/
def rowXBoard : Board := ⟨[[1, 1, 1], [0, 0, 0], [0, 0, 0]], 3, 0, by decide, by decide⟩

/-- A full 3×3 board whose top row is a line of X. -/
def fullBoard : Board := ⟨[[1, 1, 1], [2, 2, 1], [1, 2, 2]], 3, 0, by decide, by decide⟩

/-- The board `Board(3)` builds when `new Symbol` returns address 0. -/
def blankBoard3 : Board := ⟨[[0, 0, 0], [0, 0, 0], [0, 0, 0]], 3, 0, by decide, by decide⟩

/-- The board `Board(1)` builds when `new Symbol` returns address 0. -/
def blankBoard1 : Board := ⟨[[0]], 1, 0, by decide, by decide⟩

/-- The board `Board(0)` builds when `new Symbol` returns address 0: no rows. -/
def blankBoard0 : Board := ⟨[], 0, 0, by decide, by decide⟩

/-- The `Player` objects of `main`. -/
def mainPlayers : PlayerPtr → Player := fun a =>
  if a = 10 then Player.new 1 "Henry" 1 else Player.new 2 "John" 2

/-- The state in which `main` calls `play()` for a 3×3 board, after the
"Game started." notification. -/
def startedSession : World :=
  { game := { board := blankBoard3, players := [10, 11], observers := [20], finished := false }
    playerAt := mainPlayers
    updates := [(20, "Game started.")] }

/-! ## Lines of the board, in the words of the specification -/

/-- The four families of lines `hasWinner` scans. -/
inductive Line where
  | row (i : Int)
  | col (j : Int)
  | diag
  | anti
  deriving DecidableEq, Repr

/-- A row or column index of a line lies on the board. -/
def Line.onBoard (n : Int) : Line → Prop
  | .row i => 0 ≤ i ∧ i < n
  | .col j => 0 ≤ j ∧ j < n
  | .diag => True
  | .anti => True

instance (n : Int) : (l : Line) → Decidable (l.onBoard n)
  | .row i => inferInstanceAs (Decidable (0 ≤ i ∧ i < n))
  | .col j => inferInstanceAs (Decidable (0 ≤ j ∧ j < n))
  | .diag => inferInstanceAs (Decidable True)
  | .anti => inferInstanceAs (Decidable True)

/-- The coordinate of the `t`-th cell of a line on a board of size `n`. -/
def Line.cellAt (n : Int) : Line → Int → Int × Int
  | .row i, t => (i, t)
  | .col j, t => (t, j)
  | .diag, t => (t, t)
  | .anti, t => (t, n - 1 - t)

/-- Every one of the `n` cells of the line holds the symbol `m`. -/
def Board.lineFull (b : Board) (l : Line) (m : SymbolPtr) : Prop :=
  ∀ t : Int, 0 ≤ t → t < b.getSize →
    b.getCell (l.cellAt b.getSize t).1 (l.cellAt b.getSize t).2 = m

/-! ## The run of a session, in the words of the specification -/

/-- The `update` calls that deliver a list of messages: one message after the
other, each message to every observer in registration order. -/
def broadcast (observers : List ObserverPtr) : List String → List (ObserverPtr × String)
  | [] => []
  | m :: ms => observers.map (fun obs => (obs, m)) ++ broadcast observers ms

/-- The messages one observer has received, oldest first. -/
def received (updates : List (ObserverPtr × String)) (obs : ObserverPtr) : List String :=
  (updates.filter (fun u => u.1 == obs)).map (fun u => u.2)

/-- Every message of the list `k` times in a row, the messages in their order. -/
def repeatEach (k : Nat) : List String → List String
  | [] => []
  | m :: ms => List.replicate k m ++ repeatEach k ms

/-- The message for an accepted move, "{name} played at (row,col).". -/
def playedMessage (name : String) (row col : Int) : String :=
  name ++ " played at (" ++ to_string row ++ "," ++ to_string col ++ ")."

/-- The message for a win, "{name} has won the game.". -/
def wonMessage (name : String) : String := name ++ " has won the game."

/-- The message for a draw. -/
def drawMessage : String := "The game ended in a draw."

/-- The board after the front player `current` has placed the own marker at
`(row, col)`. -/
def movedBoard (w : World) (current : PlayerPtr) (row col : Int) : Board :=
  (w.game.board.placeSymbol row col (w.playerAt current).getSymbol).2

/-- The state after an accepted move of the front player `p0` that wins. -/
def afterWin (w : World) (p0 : PlayerPtr) (row col : Int) : World :=
  { game := { w.game with board := movedBoard w p0 row col, finished := true }
    playerAt := Function.update w.playerAt p0 (w.playerAt p0).incrementScore
    updates := w.updates ++ broadcast w.game.observers
      [playedMessage (w.playerAt p0).getName row col, wonMessage (w.playerAt p0).getName] }

/-- The state after an accepted move of the front player `p0` that fills the
board without winning. -/
def afterDraw (w : World) (p0 : PlayerPtr) (row col : Int) : World :=
  { game := { w.game with board := movedBoard w p0 row col, finished := true }
    playerAt := w.playerAt
    updates := w.updates ++ broadcast w.game.observers
      [playedMessage (w.playerAt p0).getName row col, drawMessage] }

/-- The state after an accepted move of the front player `p0` that does not end
the session; `rest` are the players behind `p0`. -/
def afterNext (w : World) (p0 : PlayerPtr) (rest : List PlayerPtr) (row col : Int) : World :=
  { game := { w.game with board := movedBoard w p0 row col, players := rest ++ [p0] }
    playerAt := w.playerAt
    updates := w.updates ++ broadcast w.game.observers
      [playedMessage (w.playerAt p0).getName row col] }

/-- The messages a run of the turn loop owes its observers, as the specification
words them: nothing for a rejected move, one "played" message for each accepted
move, and right after the move that ends the session the one message of the
outcome, after which nothing follows. -/
def transcript (w : World) : List (Int × Int) → List String
  | [] => []
  | (row, col) :: rest =>
    if w.game.finished then []
    else
      match w.game.players with
      | [] => []
      | current :: others =>
        if StandardRules.isValidMove w.game.board row col then
          if StandardRules.hasWinner (movedBoard w current row col)
              (w.playerAt current).getSymbol then
            [playedMessage (w.playerAt current).getName row col,
              wonMessage (w.playerAt current).getName]
          else if StandardRules.isDraw (movedBoard w current row col) then
            [playedMessage (w.playerAt current).getName row col, drawMessage]
          else
            playedMessage (w.playerAt current).getName row col ::
              transcript
                { w with game := { w.game with
                    board := movedBoard w current row col, players := others ++ [current] } }
                rest
        else transcript w rest

/-- The number of moves of the input that the turn loop accepts, as the
specification words it: a rejected move does not count, an accepted move
counts once, and nothing counts after the move that ends the session. -/
def acceptedMoves (w : World) : List (Int × Int) → Nat
  | [] => 0
  | (row, col) :: rest =>
    if w.game.finished then 0
    else
      match w.game.players with
      | [] => 0
      | current :: others =>
        if StandardRules.isValidMove w.game.board row col then
          if StandardRules.hasWinner (movedBoard w current row col)
              (w.playerAt current).getSymbol then 1
          else if StandardRules.isDraw (movedBoard w current row col) then 1
          else
            1 + acceptedMoves
              { w with game := { w.game with
                  board := movedBoard w current row col, players := others ++ [current] } }
              rest
        else acceptedMoves w rest

/-- The invariant of the turn loop behind the winner check: the rotation holds the
players registered in `w0`, their markers are those of `w0`, and while the
session is not finished no player of the rotation has a full line. -/
def noWinnerInv (w0 v : World) : Prop :=
  (∀ q, q ∈ v.game.players ↔ q ∈ w0.game.players) ∧
  (∀ q, (v.playerAt q).getSymbol = (w0.playerAt q).getSymbol) ∧
  v.game.players ≠ [] ∧
  (v.game.finished = false → ∀ q ∈ v.game.players,
    StandardRules.hasWinner v.game.board (v.playerAt q).getSymbol = false)

/-- The number of cells of the board that do not hold the empty symbol. -/
def Board.occupied (b : Board) : Nat :=
  ((Finset.range b.getSize.toNat ×ˢ Finset.range b.getSize.toNat).filter
    (fun c => b.getCell (c.1 : Int) (c.2 : Int) ≠ b.getEmptySymbol)).card

/-- The invariant of the turn loop behind the bound on its length: the board has
size `n` and empty symbol `e`, the rotation is not empty, no marker of a
player in it is the empty symbol, and a board with all `n * n` cells occupied
belongs to a finished session. -/
def boundedInv (n : Int) (e : SymbolPtr) (v : World) : Prop :=
  v.game.board.getSize = n ∧
  v.game.board.emptySymbol = e ∧
  v.game.players ≠ [] ∧
  (∀ q ∈ v.game.players, (v.playerAt q).getSymbol ≠ e) ∧
  (Board.occupied v.game.board = n.toNat * n.toNat → v.game.finished = true)

/-! ## More concrete sessions -/

/-- The object `Game(3)` builds when `new Symbol` returns address 0. -/
def freshGame3 : Game := ⟨blankBoard3, [], [], false⟩

/-- The state in which `main` calls `play()` for a 3×3 board: the observer and
the two players registered, nothing played, nothing notified. -/
def freshSession : World :=
  { game := ((freshGame3.addObserver 20).addPlayer 10).addPlayer 11
    playerAt := mainPlayers
    updates := [] }

/-- The session of `main` with the observer at address 20 registered twice
(`addObserver` has no check for that). -/
def twiceObservedSession : World :=
  { game := (((freshGame3.addObserver 20).addObserver 20).addPlayer 10).addPlayer 11
    playerAt := mainPlayers
    updates := [] }

/-- A session with one registered player. -/
def lonelySession : World :=
  { game := (freshGame3.addObserver 20).addPlayer 10
    playerAt := mainPlayers
    updates := [] }

/-- A session one move before its end, Henry (X) to move: the cell (2,2) is the
last empty one and completes the main diagonal of X. -/
def lastCellWinSession : World :=
  { game :=
      { board := ⟨[[1, 2, 1], [2, 1, 2], [2, 1, 0]], 3, 0, by decide, by decide⟩
        players := [10, 11], observers := [20], finished := false }
    playerAt := mainPlayers
    updates := [] }

/-- A session one move before its end, Henry (X) to move: the cell (2,2) is the
last empty one and completes no line. -/
def lastCellDrawSession : World :=
  { game :=
      { board := ⟨[[1, 2, 1], [1, 2, 2], [2, 1, 0]], 3, 0, by decide, by decide⟩
        players := [10, 11], observers := [20], finished := false }
    playerAt := mainPlayers
    updates := [] }

/-- A finished session: Henry has won with the top row. -/
def wonSession : World :=
  { game :=
      { board := ⟨[[1, 1, 1], [0, 2, 0], [0, 0, 2]], 3, 0, by decide, by decide⟩
        players := [10, 11], observers := [20], finished := true }
    playerAt := Function.update mainPlayers 10 (mainPlayers 10).incrementScore
    updates := [] }

/-! ## Counted loops and integer ranges -/

/-- A property of the indices `0, 1, ..., n - 1` visited by a counted loop, stated
over the integers of the range. -/
theorem forall_range_iff (n : Int) (P : Int → Prop) :
    (∀ t : Nat, t < n.toNat → P (0 + (t : Int))) ↔ ∀ i : Int, 0 ≤ i → i < n → P i := by
  constructor
  · intro h i h0 hn
    have := h i.toNat (by omega)
    rwa [zero_add, Int.toNat_of_nonneg h0] at this
  · intro h t ht
    exact h _ (by omega) (by omega)

/-- Some index visited by a counted loop has a property, stated over the
integers of the range. -/
theorem exists_range_iff (n : Int) (P : Int → Prop) :
    (∃ t : Nat, t < n.toNat ∧ P (0 + (t : Int))) ↔ ∃ i : Int, 0 ≤ i ∧ i < n ∧ P i := by
  constructor
  · rintro ⟨t, ht, hp⟩
    exact ⟨_, by omega, by omega, hp⟩
  · rintro ⟨i, h0, hn, hp⟩
    refine ⟨i.toNat, by omega, ?_⟩
    rwa [zero_add, Int.toNat_of_nonneg h0]

theorem allFrom_iff (p : Int → Bool) (k : Nat) (i : Int) :
    allFrom p i k = true ↔ ∀ t : Nat, t < k → p (i + (t : Int)) = true := by
  induction k generalizing i with
  | zero => simp [allFrom]
  | succ k ih =>
    simp only [allFrom]
    by_cases hp : p i = true
    · simp only [hp, if_true, ih]
      constructor
      · intro h t ht
        rcases t with _ | t
        · simpa using hp
        · have := h t (by omega)
          rw [show i + ((t + 1 : Nat) : Int) = i + 1 + (t : Int) by push_cast; ring]
          exact this
      · intro h t ht
        have := h (t + 1) (by omega)
        rw [show i + ((t + 1 : Nat) : Int) = i + 1 + (t : Int) by push_cast; ring] at this
        exact this
    · simp only [hp, if_false, Bool.false_eq_true, false_iff]
      intro h
      exact hp (by simpa using h 0 (by omega))

theorem anyFrom_iff (p : Int → Bool) (k : Nat) (i : Int) :
    anyFrom p i k = true ↔ ∃ t : Nat, t < k ∧ p (i + (t : Int)) = true := by
  induction k generalizing i with
  | zero => simp [anyFrom]
  | succ k ih =>
    simp only [anyFrom]
    by_cases hp : p i = true
    · rw [if_pos hp]
      simp only [true_iff]
      exact ⟨0, by omega, by simpa using hp⟩
    · rw [if_neg hp, ih]
      constructor
      · rintro ⟨t, ht, h⟩
        refine ⟨t + 1, by omega, ?_⟩
        rw [show i + ((t + 1 : Nat) : Int) = i + 1 + (t : Int) by push_cast; ring]
        exact h
      · rintro ⟨t, ht, h⟩
        rcases t with _ | t
        · exact absurd (by simpa using h) hp
        · refine ⟨t, by omega, ?_⟩
          rw [show i + ((t + 1 : Nat) : Int) = i + 1 + (t : Int) by push_cast; ring] at h
          exact h

/-- The test `p` holds on the whole range `0 ≤ i < n`. -/
theorem allFrom_range (p : Int → Bool) (n : Int) :
    allFrom p 0 n.toNat = true ↔ ∀ i : Int, 0 ≤ i → i < n → p i = true := by
  rw [allFrom_iff]
  exact forall_range_iff n (fun i => p i = true)

/-- The test `p` holds somewhere in the range `0 ≤ i < n`. -/
theorem anyFrom_range (p : Int → Bool) (n : Int) :
    anyFrom p 0 n.toNat = true ↔ ∃ i : Int, 0 ≤ i ∧ i < n ∧ p i = true := by
  rw [anyFrom_iff]
  exact exists_range_iff n (fun i => p i = true)

namespace StandardRules

theorem rowScan_eq (board : Board) (symbol : SymbolPtr) (i : Int) (k : Nat) (j : Int) :
    rowScan board symbol i j k = allFrom (fun j => board.getCell i j == symbol) j k := by
  induction k generalizing j with
  | zero => rfl
  | succ k ih => by_cases h : board.getCell i j = symbol <;> simp [rowScan, allFrom, h, ih]

theorem colScan_eq (board : Board) (symbol : SymbolPtr) (j : Int) (k : Nat) (i : Int) :
    colScan board symbol j i k = allFrom (fun i => board.getCell i j == symbol) i k := by
  induction k generalizing i with
  | zero => rfl
  | succ k ih => by_cases h : board.getCell i j = symbol <;> simp [colScan, allFrom, h, ih]

theorem diagScan_eq (board : Board) (symbol : SymbolPtr) (k : Nat) (i : Int) :
    diagScan board symbol i k = allFrom (fun i => board.getCell i i == symbol) i k := by
  induction k generalizing i with
  | zero => rfl
  | succ k ih => by_cases h : board.getCell i i = symbol <;> simp [diagScan, allFrom, h, ih]

theorem antiScan_eq (board : Board) (symbol : SymbolPtr) (n : Int) (k : Nat) (i : Int) :
    antiScan board symbol n i k
      = allFrom (fun i => board.getCell i (n - 1 - i) == symbol) i k := by
  induction k generalizing i with
  | zero => rfl
  | succ k ih =>
    by_cases h : board.getCell i (n - 1 - i) = symbol <;> simp [antiScan, allFrom, h, ih]

theorem rowsLoop_eq (board : Board) (symbol : SymbolPtr) (n : Int) (k : Nat) (i : Int) :
    rowsLoop board symbol n i k
      = anyFrom (fun i => rowScan board symbol i 0 n.toNat) i k := by
  induction k generalizing i with
  | zero => rfl
  | succ k ih =>
    by_cases h : rowScan board symbol i 0 n.toNat = true <;> simp [rowsLoop, anyFrom, h, ih]

theorem colsLoop_eq (board : Board) (symbol : SymbolPtr) (n : Int) (k : Nat) (j : Int) :
    colsLoop board symbol n j k
      = anyFrom (fun j => colScan board symbol j 0 n.toNat) j k := by
  induction k generalizing j with
  | zero => rfl
  | succ k ih =>
    by_cases h : colScan board symbol j 0 n.toNat = true <;> simp [colsLoop, anyFrom, h, ih]

theorem drawScan_eq (board : Board) (i : Int) (k : Nat) (j : Int) :
    drawScan board i j k
      = allFrom (fun j => board.getCell i j != board.getEmptySymbol) j k := by
  induction k generalizing j with
  | zero => rfl
  | succ k ih =>
    by_cases h : board.getCell i j = board.getEmptySymbol <;>
      simp [drawScan, allFrom, h, ih]

theorem drawLoop_eq (board : Board) (n : Int) (k : Nat) (i : Int) :
    drawLoop board n i k = allFrom (fun i => drawScan board i 0 n.toNat) i k := by
  induction k generalizing i with
  | zero => rfl
  | succ k ih =>
    by_cases h : drawScan board i 0 n.toNat = true <;> simp [drawLoop, allFrom, h, ih]

/-- The row loop returns true exactly when some row of the board is full of `symbol`. -/
theorem rowsLoop_iff (board : Board) (symbol : SymbolPtr) (n : Int) :
    rowsLoop board symbol n 0 n.toNat = true ↔
      ∃ i : Int, 0 ≤ i ∧ i < n ∧ ∀ j : Int, 0 ≤ j → j < n → board.getCell i j = symbol := by
  rw [rowsLoop_eq, anyFrom_range]
  simp only [rowScan_eq, allFrom_range, beq_iff_eq]

/-- The column loop returns true exactly when some column is full of `symbol`. -/
theorem colsLoop_iff (board : Board) (symbol : SymbolPtr) (n : Int) :
    colsLoop board symbol n 0 n.toNat = true ↔
      ∃ j : Int, 0 ≤ j ∧ j < n ∧ ∀ i : Int, 0 ≤ i → i < n → board.getCell i j = symbol := by
  rw [colsLoop_eq, anyFrom_range]
  simp only [colScan_eq, allFrom_range, beq_iff_eq]

theorem diagScan_iff (board : Board) (symbol : SymbolPtr) (n : Int) :
    diagScan board symbol 0 n.toNat = true ↔
      ∀ i : Int, 0 ≤ i → i < n → board.getCell i i = symbol := by
  rw [diagScan_eq, allFrom_range]
  simp only [beq_iff_eq]

theorem antiScan_iff (board : Board) (symbol : SymbolPtr) (n : Int) :
    antiScan board symbol n 0 n.toNat = true ↔
      ∀ i : Int, 0 ≤ i → i < n → board.getCell i (n - 1 - i) = symbol := by
  rw [antiScan_eq, allFrom_range]
  simp only [beq_iff_eq]

/-- The four loops of `hasWinner`, read as statements about the cells. -/
theorem hasWinner_iff (board : Board) (m : SymbolPtr) :
    hasWinner board m = true ↔
      (∃ i : Int, 0 ≤ i ∧ i < board.getSize ∧
          ∀ j : Int, 0 ≤ j → j < board.getSize → board.getCell i j = m) ∨
      (∃ j : Int, 0 ≤ j ∧ j < board.getSize ∧
          ∀ i : Int, 0 ≤ i → i < board.getSize → board.getCell i j = m) ∨
      (∀ i : Int, 0 ≤ i → i < board.getSize → board.getCell i i = m) ∨
      (∀ i : Int, 0 ≤ i → i < board.getSize →
          board.getCell i (board.getSize - 1 - i) = m) := by
  unfold hasWinner
  simp only [← rowsLoop_iff, ← colsLoop_iff, ← diagScan_iff, ← antiScan_iff]
  cases rowsLoop board m board.getSize 0 board.getSize.toNat <;>
    cases colsLoop board m board.getSize 0 board.getSize.toNat <;>
    cases diagScan board m 0 board.getSize.toNat <;>
    simp

/-- A full line of `m` that lies on the board makes `hasWinner` true for `m`. -/
theorem hasWinner_of_lineFull (board : Board) (l : Line) (m : SymbolPtr)
    (hl : l.onBoard board.getSize) (hf : board.lineFull l m) :
    hasWinner board m = true := by
  rw [hasWinner_iff]
  cases l with
  | row i => exact Or.inl ⟨i, hl.1, hl.2, fun j h0 hn => hf j h0 hn⟩
  | col j => exact Or.inr (Or.inl ⟨j, hl.1, hl.2, fun i h0 hn => hf i h0 hn⟩)
  | diag => exact Or.inr (Or.inr (Or.inl fun i h0 hn => hf i h0 hn))
  | anti => exact Or.inr (Or.inr (Or.inr fun i h0 hn => hf i h0 hn))

/-- The statement of `hasWinner` in terms of lines: some line on the board is full. -/
theorem hasWinner_iff_lineFull (board : Board) (m : SymbolPtr) :
    hasWinner board m = true ↔ ∃ l : Line, l.onBoard board.getSize ∧ board.lineFull l m := by
  constructor
  · intro h
    rcases (hasWinner_iff board m).1 h with ⟨i, h0, hn, hf⟩ | ⟨j, h0, hn, hf⟩ | hf | hf
    · exact ⟨Line.row i, ⟨h0, hn⟩, fun t ht0 htn => hf t ht0 htn⟩
    · exact ⟨Line.col j, ⟨h0, hn⟩, fun t ht0 htn => hf t ht0 htn⟩
    · exact ⟨Line.diag, trivial, fun t ht0 htn => hf t ht0 htn⟩
    · exact ⟨Line.anti, trivial, fun t ht0 htn => hf t ht0 htn⟩
  · rintro ⟨l, hl, hf⟩
    exact hasWinner_of_lineFull board l m hl hf

/-- The loop of `isDraw` runs to its end exactly when no cell in range is the
empty symbol. -/
theorem drawLoop_iff (board : Board) (n : Int) :
    drawLoop board n 0 n.toNat = true ↔
      ∀ i : Int, 0 ≤ i → i < n → ∀ j : Int, 0 ≤ j → j < n →
        board.getCell i j ≠ board.getEmptySymbol := by
  rw [drawLoop_eq, allFrom_range]
  simp only [drawScan_eq, allFrom_range, bne_iff_ne, ne_eq]

end StandardRules

/-! ## Board: access and placement -/

namespace Board

theorem outOfRange_iff (b : Board) (row col : Int) :
    ¬ b.outOfRange row col ↔ 0 ≤ row ∧ row < b.getSize ∧ 0 ≤ col ∧ col < b.getSize := by
  unfold outOfRange getSize
  omega

theorem getCell_out (b : Board) {row col : Int} (h : b.outOfRange row col) :
    b.getCell row col = b.emptySymbol := by
  simp [getCell, h]

theorem getCell_stored (b : Board) {row col : Int} (h : ¬ b.outOfRange row col) :
    ∃ r, b.grid[row.toNat]? = some r ∧ r[col.toNat]? = some (b.getCell row col) := by
  have hr : row.toNat < b.grid.length := by
    have := b.rows_ok; unfold outOfRange at h; omega
  have hc : col.toNat < (b.grid[row.toNat]).length := by
    have := b.cols_ok _ (List.getElem_mem hr)
    unfold outOfRange at h; omega
  refine ⟨b.grid[row.toNat], List.getElem?_eq_getElem hr, ?_⟩
  rw [List.getElem?_eq_getElem hc]
  simp [getCell, h, cell, rowAt]

theorem isCellEmpty_iff (b : Board) (row col : Int) :
    b.isCellEmpty row col = true ↔
      ¬ b.outOfRange row col ∧ b.getCell row col = b.emptySymbol := by
  by_cases h : b.outOfRange row col
  · simp [isCellEmpty, h]
  · simp [isCellEmpty, getCell, h]

/-- The bounds guard only reads `dimension`, which `assign` keeps. -/
theorem outOfRange_assign (b : Board) {row col : Int} (h : ¬ b.outOfRange row col)
    (s : SymbolPtr) (r c : Int) :
    (b.assign row col s h).outOfRange r c ↔ b.outOfRange r c := Iff.rfl

/-- Reading a board after `grid[row][col] = s`: the written cell holds `s`, every
other coordinate reads as before. -/
theorem getCell_assign (b : Board) {row col : Int} (h : ¬ b.outOfRange row col)
    (s : SymbolPtr) (r c : Int) :
    (b.assign row col s h).getCell r c
      = if r = row ∧ c = col then s else b.getCell r c := by
  by_cases ho : b.outOfRange r c
  · have ho2 : (b.assign row col s h).outOfRange r c := ho
    have hne : ¬ (r = row ∧ c = col) := by
      rintro ⟨rfl, rfl⟩
      exact h ho
    rw [getCell_out _ ho2, getCell_out _ ho, if_neg hne]
    rfl
  · have ho2 : ¬ (b.assign row col s h).outOfRange r c := ho
    obtain ⟨x, hx, hxc⟩ := (b.assign row col s h).getCell_stored ho2
    obtain ⟨y, hy, hyc⟩ := b.getCell_stored ho
    obtain ⟨z, hz, hzc⟩ := b.getCell_stored h
    have hrl : row.toNat < b.grid.length := by
      have := b.rows_ok; unfold outOfRange at h; omega
    have hzeq : b.rowAt row col h = z := by
      have : b.grid[row.toNat]? = some (b.rowAt row col h) := by
        simp [rowAt, List.getElem?_eq_getElem hrl]
      rw [hz] at this
      exact (Option.some.inj this).symm
    have hg : (b.assign row col s h).grid = b.grid.set row.toNat (z.set col.toNat s) := by
      simp [assign, hzeq]
    rw [hg] at hx
    have hcl : col.toNat < z.length := by
      have := (List.getElem?_eq_some_iff.1 hzc).1
      exact this
    unfold outOfRange at h ho
    by_cases hr : r = row
    · subst hr
      rw [List.getElem?_set_self hrl] at hx
      have hxz : x = z.set col.toNat s := (Option.some.inj hx).symm
      have hyz : y = z := by
        rw [hz] at hy
        exact (Option.some.inj hy).symm
      subst hxz hyz
      by_cases hc : c = col
      · subst hc
        rw [List.getElem?_set_self hcl] at hxc
        simp only [true_and, if_true]
        exact (Option.some.inj hxc).symm
      · have hcn : col.toNat ≠ c.toNat := by omega
        rw [List.getElem?_set_ne hcn, hyc] at hxc
        simp only [hc, and_false, if_false]
        exact (Option.some.inj hxc).symm
    · have hrn : row.toNat ≠ r.toNat := by omega
      rw [List.getElem?_set_ne hrn, hy] at hx
      have hxy : y = x := Option.some.inj hx
      subst hxy
      rw [hyc] at hxc
      simp only [hr, false_and, if_false]
      exact (Option.some.inj hxc).symm

/-- A call of `placeSymbol` on a cell in range that `isCellEmpty` reports empty
performs the assignment and returns true. -/
theorem placeSymbol_of_empty (b : Board) {row col : Int} (h : ¬ b.outOfRange row col)
    (he : b.isCellEmpty row col = true) (s : SymbolPtr) :
    b.placeSymbol row col s = (true, b.assign row col s h) := by
  simp [placeSymbol, h, he]

/-- A call of `placeSymbol` on a cell that `isCellEmpty` does not report empty
returns false and keeps the board. -/
theorem placeSymbol_of_not_empty (b : Board) {row col : Int}
    (he : b.isCellEmpty row col = false) (s : SymbolPtr) :
    b.placeSymbol row col s = (false, b) := by
  by_cases h : b.outOfRange row col <;> simp [placeSymbol, h, he]

/-- The board built by `Board(dim)` for `dim ≥ 0`, cell by cell. -/
theorem new_ok (dim : Int) (fresh : SymbolPtr) (hd : 0 ≤ dim) :
    ∃ b, Board.new dim fresh = .ok b ∧ b.dimension = dim ∧ b.emptySymbol = fresh ∧
      ∀ row col, b.getCell row col = fresh := by
  have hnot : ¬ dim < 0 := by omega
  refine ⟨_, dif_neg hnot, rfl, rfl, ?_⟩
  intro row col
  by_cases ho : Board.outOfRange
      { grid := List.replicate dim.toNat (List.replicate dim.toNat fresh)
        dimension := dim, emptySymbol := fresh, rows_ok := by simp; omega
        cols_ok := by
          intro r hr
          rw [List.eq_of_mem_replicate hr]
          simp; omega } row col
  · exact getCell_out _ ho
  · obtain ⟨x, hx, hxc⟩ := getCell_stored _ ho
    simp only [List.getElem?_replicate] at hx
    split at hx
    · rw [← Option.some.inj hx] at hxc
      simp only [List.getElem?_replicate] at hxc
      split at hxc
      · exact (Option.some.inj hxc).symm
      · exact absurd hxc (by simp)
    · exact absurd hx (by simp)

/-- A line full of `m` after `grid[row][col] = s`, for another symbol `s`, was
full of `m` before: the written cell is not on it. -/
theorem lineFull_of_assign (b : Board) {row col : Int} (h : ¬ b.outOfRange row col)
    (s m : SymbolPtr) (hne : m ≠ s) (l : Line)
    (hf : (b.assign row col s h).lineFull l m) : b.lineFull l m := by
  intro t h0 hn
  have := hf t h0 hn
  rw [getCell_assign] at this
  split at this
  · exact absurd this.symm hne
  · exact this

/-- A symbol other than the one just written wins after the write only if it won
before. -/
theorem hasWinner_of_assign (b : Board) {row col : Int} (h : ¬ b.outOfRange row col)
    (s m : SymbolPtr) (hne : m ≠ s)
    (hw : StandardRules.hasWinner (b.assign row col s h) m = true) :
    StandardRules.hasWinner b m = true := by
  obtain ⟨l, hl, hf⟩ := (StandardRules.hasWinner_iff_lineFull _ m).1 hw
  exact (StandardRules.hasWinner_iff_lineFull b m).2 ⟨l, hl, lineFull_of_assign b h s m hne l hf⟩

/-- At most all the cells of the board are occupied. -/
theorem occupied_le (b : Board) : b.occupied ≤ b.getSize.toNat * b.getSize.toNat := by
  unfold occupied
  calc _ ≤ (Finset.range b.getSize.toNat ×ˢ Finset.range b.getSize.toNat).card :=
        Finset.card_filter_le _ _
    _ = b.getSize.toNat * b.getSize.toNat := by
        rw [Finset.card_product, Finset.card_range]

/-- A board whose cells all read as the empty symbol has no occupied cell. -/
theorem occupied_blank (b : Board) (hcells : ∀ row col, b.getCell row col = b.emptySymbol) :
    b.occupied = 0 := by
  unfold occupied
  rw [Finset.card_eq_zero, Finset.filter_eq_empty_iff]
  intro c _
  simp [hcells, getEmptySymbol]

/-- When all the cells are occupied, no cell in range holds the empty symbol. -/
theorem no_empty_of_occupied_eq (b : Board)
    (hfull : b.occupied = b.getSize.toNat * b.getSize.toNat) :
    ∀ i : Int, 0 ≤ i → i < b.getSize → ∀ j : Int, 0 ≤ j → j < b.getSize →
      b.getCell i j ≠ b.getEmptySymbol := by
  have hcard : ((Finset.range b.getSize.toNat ×ˢ Finset.range b.getSize.toNat).filter
      (fun c => b.getCell (c.1 : Int) (c.2 : Int) ≠ b.getEmptySymbol)).card
      = (Finset.range b.getSize.toNat ×ˢ Finset.range b.getSize.toNat).card := by
    rw [Finset.card_product, Finset.card_range]
    exact hfull
  have hall := Finset.card_filter_eq_iff.1 hcard
  intro i hi0 hin j hj0 hjn
  have := hall (i.toNat, j.toNat) (by
    simp only [Finset.mem_product, Finset.mem_range]
    omega)
  simpa [Int.toNat_of_nonneg hi0, Int.toNat_of_nonneg hj0] using this

/-- Writing a symbol other than the empty one into an empty cell occupies one
more cell. -/
theorem occupied_assign (b : Board) {row col : Int} (h : ¬ b.outOfRange row col)
    (s : SymbolPtr) (hold : b.getCell row col = b.emptySymbol) (hs : s ≠ b.emptySymbol) :
    (b.assign row col s h).occupied = b.occupied + 1 := by
  have hr := h
  unfold outOfRange at hr
  have hrow : ((row.toNat : Nat) : Int) = row := Int.toNat_of_nonneg (by omega)
  have hcol : ((col.toNat : Nat) : Int) = col := Int.toNat_of_nonneg (by omega)
  have hset : ((Finset.range b.getSize.toNat ×ˢ Finset.range b.getSize.toNat).filter
      (fun c => (b.assign row col s h).getCell (c.1 : Int) (c.2 : Int) ≠ b.getEmptySymbol))
      = insert (row.toNat, col.toNat)
        ((Finset.range b.getSize.toNat ×ˢ Finset.range b.getSize.toNat).filter
          (fun c => b.getCell (c.1 : Int) (c.2 : Int) ≠ b.getEmptySymbol)) := by
    ext c
    obtain ⟨i, j⟩ := c
    simp only [Finset.mem_filter, Finset.mem_insert, Finset.mem_product, Finset.mem_range,
      getCell_assign, Prod.mk.injEq]
    by_cases hc : (i : Int) = row ∧ (j : Int) = col
    · have hi : i = row.toNat := by omega
      have hj : j = col.toNat := by omega
      rw [if_pos hc]
      simp only [hi, hj, and_self, true_or, iff_true]
      refine ⟨⟨?_, ?_⟩, hs⟩
      · unfold getSize; omega
      · unfold getSize; omega
    · have hne : ¬ (i = row.toNat ∧ j = col.toNat) := by
        rintro ⟨hi, hj⟩
        apply hc
        constructor <;> omega
      rw [if_neg hc]
      simp only [hne, false_or]
  have hnot : (row.toNat, col.toNat) ∉
      (Finset.range b.getSize.toNat ×ˢ Finset.range b.getSize.toNat).filter
        (fun c => b.getCell (c.1 : Int) (c.2 : Int) ≠ b.getEmptySymbol) := by
    simp only [Finset.mem_filter, not_and, not_not]
    intro _
    rw [hrow, hcol]
    exact hold
  show ((Finset.range b.getSize.toNat ×ˢ Finset.range b.getSize.toNat).filter
      (fun c => (b.assign row col s h).getCell (c.1 : Int) (c.2 : Int) ≠ b.getEmptySymbol)).card
      = b.occupied + 1
  rw [hset, Finset.card_insert_of_not_mem hnot]
  rfl

/-- On a board of size at least 1 whose cells all hold `e`, no other symbol wins. -/
theorem hasWinner_blank (b : Board) (e m : SymbolPtr) (hn : 1 ≤ b.getSize)
    (hcells : ∀ row col, b.getCell row col = e) (hne : m ≠ e) :
    StandardRules.hasWinner b m = false := by
  apply Bool.eq_false_iff.2
  intro hw
  obtain ⟨l, _, hf⟩ := (StandardRules.hasWinner_iff_lineFull b m).1 hw
  have := hf 0 (le_refl 0) (by omega)
  rw [hcells] at this
  exact hne this.symm

end Board

/-! ## The turn step, branch by branch -/

namespace Game

theorem notify_eq (w : World) (message : String) :
    notify w message
      = { w with updates := w.updates ++ broadcast w.game.observers [message] } := by
  simp [notify, broadcast]

/-- A rejected move: the iteration changes nothing. -/
theorem turn_invalid (w : World) (row col : Int) (p0 : PlayerPtr) (rest : List PlayerPtr)
    (hrot : w.game.players = p0 :: rest)
    (hbad : StandardRules.isValidMove w.game.board row col = false) :
    turn w row col = some w := by
  unfold turn
  rw [hrot]
  simp [hbad]

/-- An accepted move that wins. -/
theorem turn_win (w : World) (row col : Int) (p0 : PlayerPtr) (rest : List PlayerPtr)
    (hrot : w.game.players = p0 :: rest)
    (hvalid : StandardRules.isValidMove w.game.board row col = true)
    (hwin : StandardRules.hasWinner (movedBoard w p0 row col) (w.playerAt p0).getSymbol = true) :
    turn w row col = some
      { game := { w.game with board := movedBoard w p0 row col, finished := true }
        playerAt := Function.update w.playerAt p0 (w.playerAt p0).incrementScore
        updates := w.updates ++ broadcast w.game.observers
          [playedMessage (w.playerAt p0).getName row col, wonMessage (w.playerAt p0).getName] } := by
  unfold movedBoard at hwin
  unfold turn
  rw [hrot]
  simp [hvalid, hwin, notify, broadcast, playedMessage, wonMessage, movedBoard]

/-- An accepted move that fills the board without winning. -/
theorem turn_draw (w : World) (row col : Int) (p0 : PlayerPtr) (rest : List PlayerPtr)
    (hrot : w.game.players = p0 :: rest)
    (hvalid : StandardRules.isValidMove w.game.board row col = true)
    (hnowin : StandardRules.hasWinner (movedBoard w p0 row col) (w.playerAt p0).getSymbol = false)
    (hdraw : StandardRules.isDraw (movedBoard w p0 row col) = true) :
    turn w row col = some
      { game := { w.game with board := movedBoard w p0 row col, finished := true }
        playerAt := w.playerAt
        updates := w.updates ++ broadcast w.game.observers
          [playedMessage (w.playerAt p0).getName row col, drawMessage] } := by
  unfold movedBoard at hnowin hdraw
  unfold turn
  rw [hrot]
  simp [hvalid, hnowin, hdraw, notify, broadcast, playedMessage, drawMessage, movedBoard]

/-- An accepted move that does not end the session. -/
theorem turn_next (w : World) (row col : Int) (p0 : PlayerPtr) (rest : List PlayerPtr)
    (hrot : w.game.players = p0 :: rest)
    (hvalid : StandardRules.isValidMove w.game.board row col = true)
    (hnowin : StandardRules.hasWinner (movedBoard w p0 row col) (w.playerAt p0).getSymbol = false)
    (hnodraw : StandardRules.isDraw (movedBoard w p0 row col) = false) :
    turn w row col = some
      { game := { w.game with board := movedBoard w p0 row col, players := rest ++ [p0] }
        playerAt := w.playerAt
        updates := w.updates ++ broadcast w.game.observers
          [playedMessage (w.playerAt p0).getName row col] } := by
  unfold movedBoard at hnowin hnodraw
  unfold turn
  rw [hrot]
  simp [hvalid, hnowin, hnodraw, notify, broadcast, playedMessage, movedBoard]

/-- The four ways an iteration of the loop can go. -/
theorem turn_cases (w : World) (row col : Int) (p0 : PlayerPtr) (rest : List PlayerPtr)
    (hrot : w.game.players = p0 :: rest) :
    (StandardRules.isValidMove w.game.board row col = false ∧ turn w row col = some w) ∨
    (StandardRules.isValidMove w.game.board row col = true ∧
      StandardRules.hasWinner (movedBoard w p0 row col) (w.playerAt p0).getSymbol = true ∧
      turn w row col = some (afterWin w p0 row col)) ∨
    (StandardRules.isValidMove w.game.board row col = true ∧
      StandardRules.hasWinner (movedBoard w p0 row col) (w.playerAt p0).getSymbol = false ∧
      StandardRules.isDraw (movedBoard w p0 row col) = true ∧
      turn w row col = some (afterDraw w p0 row col)) ∨
    (StandardRules.isValidMove w.game.board row col = true ∧
      StandardRules.hasWinner (movedBoard w p0 row col) (w.playerAt p0).getSymbol = false ∧
      StandardRules.isDraw (movedBoard w p0 row col) = false ∧
      turn w row col = some (afterNext w p0 rest row col)) := by
  cases hv : StandardRules.isValidMove w.game.board row col with
  | false => exact Or.inl ⟨rfl, turn_invalid w row col p0 rest hrot hv⟩
  | true =>
    cases hw : StandardRules.hasWinner (movedBoard w p0 row col) (w.playerAt p0).getSymbol with
    | true => exact Or.inr (Or.inl ⟨rfl, rfl, turn_win w row col p0 rest hrot hv hw⟩)
    | false =>
      cases hd : StandardRules.isDraw (movedBoard w p0 row col) with
      | true => exact Or.inr (Or.inr (Or.inl ⟨rfl, rfl, rfl, turn_draw w row col p0 rest hrot hv hw hd⟩))
      | false => exact Or.inr (Or.inr (Or.inr ⟨rfl, rfl, rfl, turn_next w row col p0 rest hrot hv hw hd⟩))

/-- The loop on a finished session reads nothing and changes nothing. -/
theorem loop_finished (w : World) (input : List (Int × Int))
    (hfin : w.game.finished = true) : loop w input = some (w, input) := by
  cases input with
  | nil => rfl
  | cons m rest =>
    obtain ⟨row, col⟩ := m
    simp [loop, hfin]

/-- A run that has read all of `xs` and ended finished reads nothing of what
follows `xs`. -/
theorem loop_append_finished (xs more : List (Int × Int)) (w w1 : World)
    (hrun : loop w xs = some (w1, [])) (hfin : w1.game.finished = true) :
    loop w (xs ++ more) = some (w1, more) := by
  induction xs generalizing w with
  | nil =>
    have hw : w = w1 := by
      have := hrun
      simp only [loop, Option.some.injEq, Prod.mk.injEq, and_true] at this
      exact this
    subst hw
    exact loop_finished w _ hfin
  | cons m rest ih =>
    obtain ⟨row, col⟩ := m
    by_cases hf : w.game.finished = true
    · rw [loop_finished w _ hf] at hrun
      simp at hrun
    · simp only [loop, hf, if_false, List.cons_append] at hrun ⊢
      cases ht : turn w row col with
      | none => simp [ht] at hrun
      | some w2 =>
        simp only [ht] at hrun ⊢
        exact ih w2 hrun

/-- One step of the loop on a session in progress. -/
theorem loop_cons (w w1 : World) (row col : Int) (rest : List (Int × Int))
    (hprogress : w.game.finished = false) (hturn : turn w row col = some w1) :
    loop w ((row, col) :: rest) = loop w1 rest := by
  simp only [loop, hprogress, Bool.false_eq_true, if_false, hturn]

theorem broadcast_append (observers : List ObserverPtr) (xs ys : List String) :
    broadcast observers (xs ++ ys) = broadcast observers xs ++ broadcast observers ys := by
  induction xs with
  | nil => rfl
  | cons m ms ih => simp [broadcast, ih]

/-- The transcript reads the `Game` object and the `Player` objects only. -/
theorem transcript_congr (input : List (Int × Int)) (w v : World)
    (hg : w.game = v.game) (hp : w.playerAt = v.playerAt) :
    transcript w input = transcript v input := by
  induction input generalizing w v with
  | nil => rfl
  | cons m rest ih =>
    obtain ⟨row, col⟩ := m
    obtain ⟨g, pa, u⟩ := w
    obtain ⟨g2, pa2, u2⟩ := v
    simp only at hg hp
    subst hg hp
    simp only [transcript, movedBoard]
    split
    · rfl
    · split
      · rfl
      · split
        · split
          · rfl
          · split
            · rfl
            · congr 1
              exact ih _ _ rfl rfl
        · exact ih _ _ rfl rfl

/-- The run of the loop on a finite input: it reaches a state (no `front()` on an
empty deque), keeps the observers, and has made the
`update` calls of the transcript. -/
theorem loop_updates (input : List (Int × Int)) (w : World)
    (hne : w.game.players ≠ []) :
    ∃ w1 rest, loop w input = some (w1, rest) ∧
      w1.game.observers = w.game.observers ∧
      w1.updates = w.updates ++ broadcast w.game.observers (transcript w input) := by
  induction input generalizing w with
  | nil => exact ⟨w, [], rfl, rfl, by simp [transcript, broadcast]⟩
  | cons m rest ih =>
    obtain ⟨row, col⟩ := m
    by_cases hf : w.game.finished = true
    · exact ⟨w, _, loop_finished w _ hf, rfl, by simp [transcript, hf, broadcast]⟩
    · have hprogress : w.game.finished = false := by simpa using hf
      obtain ⟨p0, others, hrot⟩ := List.exists_cons_of_ne_nil hne
      rcases turn_cases w row col p0 others hrot with
        ⟨hv, ht⟩ | ⟨hv, hw, ht⟩ | ⟨hv, hw, hd, ht⟩ | ⟨hv, hw, hd, ht⟩
      · obtain ⟨w1, left, hl, ho, hu⟩ := ih w hne
        refine ⟨w1, left, by rw [loop_cons w w row col rest hprogress ht, hl], ho, ?_⟩
        rw [hu]
        simp [transcript, hprogress, hrot, hv]
      · refine ⟨afterWin w p0 row col, rest, ?_, rfl, ?_⟩
        · rw [loop_cons w _ row col rest hprogress ht]
          exact loop_finished _ _ rfl
        · simp [transcript, hprogress, hrot, hv, hw, afterWin]
      · refine ⟨afterDraw w p0 row col, rest, ?_, rfl, ?_⟩
        · rw [loop_cons w _ row col rest hprogress ht]
          exact loop_finished _ _ rfl
        · simp [transcript, hprogress, hrot, hv, hw, hd, afterDraw]
      · have hne2 : (afterNext w p0 others row col).game.players ≠ [] := by
          simp [afterNext]
        obtain ⟨w1, left, hl, ho, hu⟩ := ih (afterNext w p0 others row col) hne2
        refine ⟨w1, left, by rw [loop_cons w _ row col rest hprogress ht, hl], ho, ?_⟩
        rw [hu]
        have htr : transcript (afterNext w p0 others row col) rest
            = transcript { w with game := { w.game with
                board := movedBoard w p0 row col, players := others ++ [p0] } } rest :=
          transcript_congr rest _ _ rfl rfl
        rw [htr]
        have hcons : transcript w ((row, col) :: rest)
            = [playedMessage (w.playerAt p0).getName row col] ++
              transcript { w with game := { w.game with
                board := movedBoard w p0 row col, players := others ++ [p0] } } rest := by
          simp [transcript, hprogress, hrot, hv, hw, hd]
        rw [hcons, broadcast_append]
        simp [afterNext, List.append_assoc]

theorem received_append (xs ys : List (ObserverPtr × String)) (obs : ObserverPtr) :
    received (xs ++ ys) obs = received xs obs ++ received ys obs := by
  simp [received]

/-- One message sent to all observers reaches each registration once. -/
theorem received_map (observers : List ObserverPtr) (m : String) (obs : ObserverPtr) :
    received (observers.map (fun o => (o, m))) obs
      = List.replicate (observers.count obs) m := by
  induction observers with
  | nil => rfl
  | cons x xs ih =>
    by_cases hx : x = obs
    · subst hx
      have ih2 : List.map (fun u => u.2)
          (List.filter (fun u => u.1 == x) (List.map (fun o => (o, m)) xs))
          = List.replicate (List.count x xs) m := ih
      simp [received, List.replicate_succ, ih2]
    · have hx2 : (x == obs) = false := by simpa using hx
      have ih2 : List.map (fun u => u.2)
          (List.filter (fun u => u.1 == obs) (List.map (fun o => (o, m)) xs))
          = List.replicate (List.count obs xs) m := ih
      have hcount : List.count obs (x :: xs) = List.count obs xs := by
        simp [List.count_cons, hx2]
      rw [hcount]
      simp [received, hx2, ih2]

/-- An observer registered once receives the broadcast messages, each once, in
order. -/
theorem received_broadcast (observers : List ObserverPtr) (ms : List String)
    (obs : ObserverPtr) (honce : observers.count obs = 1) :
    received (broadcast observers ms) obs = ms := by
  induction ms with
  | nil => rfl
  | cons m rest ih =>
    rw [broadcast, received_append, received_map, honce, ih]
    rfl

/-- An observer receives each broadcast message once for each of its
registrations. -/
theorem received_broadcast_count (observers : List ObserverPtr) (ms : List String)
    (obs : ObserverPtr) :
    received (broadcast observers ms) obs = repeatEach (observers.count obs) ms := by
  induction ms with
  | nil => rfl
  | cons m rest ih =>
    rw [broadcast, received_append, received_map, ih]
    rfl

/-- The board after a valid move is the board with the marker written. -/
theorem movedBoard_valid (w : World) (p0 : PlayerPtr) (row col : Int)
    (hvalid : StandardRules.isValidMove w.game.board row col = true) :
    ∃ h : ¬ w.game.board.outOfRange row col,
      w.game.board.getCell row col = w.game.board.emptySymbol ∧
      movedBoard w p0 row col
        = w.game.board.assign row col (w.playerAt p0).getSymbol h := by
  have hc := (w.game.board.isCellEmpty_iff row col).1 hvalid
  refine ⟨hc.1, hc.2, ?_⟩
  unfold movedBoard
  rw [Board.placeSymbol_of_empty _ hc.1 hvalid]

/-- With a player in the rotation an iteration of the loop has a defined result. -/
theorem turn_isSome (w : World) (row col : Int) (hne : w.game.players ≠ []) :
    ∃ w1, turn w row col = some w1 := by
  obtain ⟨p0, others, hrot⟩ := List.exists_cons_of_ne_nil hne
  rcases turn_cases w row col p0 others hrot with
    ⟨_, ht⟩ | ⟨_, _, ht⟩ | ⟨_, _, _, ht⟩ | ⟨_, _, _, ht⟩
  all_goals exact ⟨_, ht⟩

/-- A property of the state that holds at the start, keeps the rotation non-empty
and survives every iteration on an unfinished session holds when the loop
has read the input or left the loop, and such a state is reached for every
finite input. -/
theorem loop_invariant (Inv : World → Prop)
    (hne : ∀ w, Inv w → w.game.players ≠ [])
    (hstep : ∀ w row col w1, Inv w → w.game.finished = false →
      turn w row col = some w1 → Inv w1)
    (input : List (Int × Int)) (w : World) (h : Inv w) :
    ∃ w1 rest, loop w input = some (w1, rest) ∧ Inv w1 := by
  induction input generalizing w with
  | nil => exact ⟨w, [], rfl, h⟩
  | cons m rest ih =>
    obtain ⟨row, col⟩ := m
    by_cases hf : w.game.finished = true
    · exact ⟨w, _, loop_finished w _ hf, h⟩
    · have hprogress : w.game.finished = false := by simpa using hf
      obtain ⟨w2, ht⟩ := turn_isSome w row col (hne w h)
      obtain ⟨w1, left, hl, hinv⟩ := ih w2 (hstep w row col w2 h hprogress ht)
      exact ⟨w1, left, by rw [loop_cons w w2 row col rest hprogress ht, hl], hinv⟩

/-- The count of accepted moves reads the `Game` object and the `Player` objects
only. -/
theorem acceptedMoves_congr (input : List (Int × Int)) (w v : World)
    (hg : w.game = v.game) (hp : w.playerAt = v.playerAt) :
    acceptedMoves w input = acceptedMoves v input := by
  induction input generalizing w v with
  | nil => rfl
  | cons m rest ih =>
    obtain ⟨row, col⟩ := m
    obtain ⟨g, pa, u⟩ := w
    obtain ⟨g2, pa2, u2⟩ := v
    simp only at hg hp
    subst hg hp
    simp only [acceptedMoves, movedBoard]
    split
    · rfl
    · split
      · rfl
      · split
        · split
          · rfl
          · split
            · rfl
            · congr 1
              exact ih _ _ rfl rfl
        · exact ih _ _ rfl rfl

/-- A valid move of a player whose marker is not the empty symbol occupies one
more cell and keeps the size and the empty symbol of the board. -/
theorem movedBoard_occupied (w : World) (p0 : PlayerPtr) (row col : Int)
    (hvalid : StandardRules.isValidMove w.game.board row col = true)
    (hm : (w.playerAt p0).getSymbol ≠ w.game.board.emptySymbol) :
    (movedBoard w p0 row col).occupied = w.game.board.occupied + 1 ∧
    (movedBoard w p0 row col).getSize = w.game.board.getSize ∧
    (movedBoard w p0 row col).emptySymbol = w.game.board.emptySymbol := by
  obtain ⟨h, hcell, hmb⟩ := movedBoard_valid w p0 row col hvalid
  rw [hmb]
  exact ⟨Board.occupied_assign _ h _ hcell hm, rfl, rfl⟩

/-- The run of the loop on a finite input under `boundedInv`: it reaches a state,
the invariant holds in
the state reached, and the occupied cells have grown by the accepted moves. -/
theorem loop_occupied (n : Int) (e : SymbolPtr) (input : List (Int × Int)) (w : World)
    (hinv : boundedInv n e w) :
    ∃ w1 rest, loop w input = some (w1, rest) ∧ boundedInv n e w1 ∧
      w1.game.board.occupied = w.game.board.occupied + acceptedMoves w input := by
  induction input generalizing w with
  | nil => exact ⟨w, [], rfl, hinv, rfl⟩
  | cons m rest ih =>
    obtain ⟨row, col⟩ := m
    by_cases hf : w.game.finished = true
    · exact ⟨w, _, loop_finished w _ hf, hinv, by simp [acceptedMoves, hf]⟩
    · have hprogress : w.game.finished = false := by simpa using hf
      obtain ⟨hsize, hemp, hne, hmark, hfull⟩ := hinv
      obtain ⟨p0, others, hrot⟩ := List.exists_cons_of_ne_nil hne
      have hm0 : (w.playerAt p0).getSymbol ≠ w.game.board.emptySymbol := by
        rw [hemp]
        exact hmark p0 (by rw [hrot]; exact List.mem_cons_self _ _)
      rcases turn_cases w row col p0 others hrot with
        ⟨hv, ht⟩ | ⟨hv, hw, ht⟩ | ⟨hv, hw, hd, ht⟩ | ⟨hv, hw, hd, ht⟩
      · obtain ⟨w1, left, hl, hinv1, hocc⟩ := ih w ⟨hsize, hemp, hne, hmark, hfull⟩
        refine ⟨w1, left, by rw [loop_cons w w row col rest hprogress ht, hl], hinv1, ?_⟩
        rw [hocc]
        simp [acceptedMoves, hprogress, hrot, hv]
      · obtain ⟨hocc, hsz, hes⟩ := movedBoard_occupied w p0 row col hv hm0
        refine ⟨afterWin w p0 row col, rest, ?_, ⟨?_, ?_, hne, ?_, fun _ => rfl⟩, ?_⟩
        · rw [loop_cons w _ row col rest hprogress ht]
          exact loop_finished _ _ rfl
        · exact hsz.trans hsize
        · exact hes.trans hemp
        · intro q hq
          have := hmark q hq
          by_cases hq0 : q = p0
          · subst hq0
            simpa [afterWin, Player.getSymbol, Player.incrementScore] using this
          · simpa [afterWin, Function.update, hq0] using this
        · show (movedBoard w p0 row col).occupied = _
          rw [hocc]
          simp [acceptedMoves, hprogress, hrot, hv, hw]
      · obtain ⟨hocc, hsz, hes⟩ := movedBoard_occupied w p0 row col hv hm0
        refine ⟨afterDraw w p0 row col, rest, ?_, ⟨?_, ?_, hne, hmark, fun _ => rfl⟩, ?_⟩
        · rw [loop_cons w _ row col rest hprogress ht]
          exact loop_finished _ _ rfl
        · exact hsz.trans hsize
        · exact hes.trans hemp
        · show (movedBoard w p0 row col).occupied = _
          rw [hocc]
          simp [acceptedMoves, hprogress, hrot, hv, hw, hd]
      · obtain ⟨hocc, hsz, hes⟩ := movedBoard_occupied w p0 row col hv hm0
        have hinv2 : boundedInv n e (afterNext w p0 others row col) := by
          refine ⟨hsz.trans hsize, hes.trans hemp, by simp [afterNext], ?_, ?_⟩
          · intro q hq
            apply hmark q
            rw [hrot]
            have hq2 : q ∈ others ++ [p0] := hq
            simp only [List.mem_append, List.mem_singleton] at hq2
            simp only [List.mem_cons]
            tauto
          · intro hall
            have hall2 : (movedBoard w p0 row col).occupied
                = (movedBoard w p0 row col).getSize.toNat
                  * (movedBoard w p0 row col).getSize.toNat := by
              rw [hsz, hsize]
              exact hall
            have hnoempty := Board.no_empty_of_occupied_eq _ hall2
            have hdraw : StandardRules.isDraw (movedBoard w p0 row col) = true :=
              (StandardRules.drawLoop_iff _ _).2 hnoempty
            rw [hd] at hdraw
            exact absurd hdraw (by decide)
        obtain ⟨w1, left, hl, hinv1, hocc1⟩ := ih (afterNext w p0 others row col) hinv2
        refine ⟨w1, left, by rw [loop_cons w _ row col rest hprogress ht, hl], hinv1, ?_⟩
        rw [hocc1]
        have hacc : acceptedMoves w ((row, col) :: rest)
            = 1 + acceptedMoves (afterNext w p0 others row col) rest := by
          have hcg : acceptedMoves (afterNext w p0 others row col) rest
              = acceptedMoves { w with game := { w.game with
                  board := movedBoard w p0 row col, players := others ++ [p0] } } rest :=
            acceptedMoves_congr rest _ _ rfl rfl
          rw [hcg]
          simp [acceptedMoves, hprogress, hrot, hv, hw, hd]
        rw [hacc]
        show (movedBoard w p0 row col).occupied + _ = _
        rw [hocc]
        omega

/-- The `play()` of a session with two or more players is the "Game started."
notification followed by the loop. -/
theorem play_eq_loop (w : World) (input : List (Int × Int))
    (htwo : 2 ≤ w.game.players.length) :
    play w input = loop (notify w "Game started.") input := by
  have : ¬ w.game.players.length < 2 := by omega
  simp [play, this]

end Game

/-! ## The claims -/

/-- C1: `hasWinner(board, m)` is true if and only if some row `i` has every cell
`(i, 0..n-1)` equal to `m`, or some column `j` has every cell `(0..n-1, j)` equal
to `m`, or every main-diagonal cell `(i, i)` equals `m`, or every anti-diagonal
cell `(i, n-1-i)` equals `m` (for every board, in particular every board of size
`n ≥ 1`); and on the 3×3 board holding X at (0,0), (0,1), (0,2) and nothing else
`hasWinner(board, X)` is true and `hasWinner(board, O)` is false. -/
theorem C1_hasWinner_iff_full_line :
    (∀ (board : Board) (m : SymbolPtr),
      StandardRules.hasWinner board m = true ↔
        (∃ i : Int, 0 ≤ i ∧ i < board.getSize ∧
            ∀ j : Int, 0 ≤ j → j < board.getSize → board.getCell i j = m) ∨
        (∃ j : Int, 0 ≤ j ∧ j < board.getSize ∧
            ∀ i : Int, 0 ≤ i → i < board.getSize → board.getCell i j = m) ∨
        (∀ i : Int, 0 ≤ i → i < board.getSize → board.getCell i i = m) ∨
        (∀ i : Int, 0 ≤ i → i < board.getSize →
            board.getCell i (board.getSize - 1 - i) = m)) ∧
    StandardRules.hasWinner rowXBoard 1 = true ∧
    StandardRules.hasWinner rowXBoard 2 = false := by
  exact ⟨StandardRules.hasWinner_iff, by decide, by decide⟩

/-- C2: `isDraw(board)` is true if and only if no in-bounds cell equals the empty
symbol of the board, whatever the cells hold; so a completely filled board on
which `hasWinner` is true for some marker still has `isDraw` true, as the
full board `fullBoard` with its line of X shows. -/
theorem C2_isDraw_iff_no_empty_cell :
    (∀ board : Board,
      StandardRules.isDraw board = true ↔
        ∀ i : Int, 0 ≤ i → i < board.getSize → ∀ j : Int, 0 ≤ j → j < board.getSize →
          board.getCell i j ≠ board.getEmptySymbol) ∧
    (∀ (board : Board) (m : SymbolPtr),
      (∀ i : Int, 0 ≤ i → i < board.getSize → ∀ j : Int, 0 ≤ j → j < board.getSize →
          board.getCell i j ≠ board.getEmptySymbol) →
      StandardRules.hasWinner board m = true → StandardRules.isDraw board = true) ∧
    (StandardRules.hasWinner fullBoard 1 = true ∧ StandardRules.isDraw fullBoard = true) := by
  refine ⟨fun board => ?_, fun board m hfull _ => ?_, by decide, by decide⟩
  · exact StandardRules.drawLoop_iff board board.getSize
  · exact (StandardRules.drawLoop_iff board board.getSize).2 hfull

/-- C3: `placeSymbol(row, col, symbol)` returns true exactly when `(row, col)` is in
bounds and the cell holds the empty symbol, and false otherwise; when it returns
false the board (grid, size, empty symbol) is the board before the call; and
`placeSymbol(-1, 0, m)` and `placeSymbol(n, n, m)` return false and leave the
board as it was. -/
theorem C3_placeSymbol_rejects_without_change (b : Board) (row col : Int) (symbol : SymbolPtr) :
    ((b.placeSymbol row col symbol).1 = true ↔
      (0 ≤ row ∧ row < b.getSize ∧ 0 ≤ col ∧ col < b.getSize) ∧
        b.getCell row col = b.getEmptySymbol) ∧
    ((b.placeSymbol row col symbol).1 = false → (b.placeSymbol row col symbol).2 = b) ∧
    b.placeSymbol (-1) 0 symbol = (false, b) ∧
    b.placeSymbol b.getSize b.getSize symbol = (false, b) := by
  refine ⟨?_, ?_, ?_, ?_⟩
  · rw [← Board.outOfRange_iff]
    by_cases h : b.outOfRange row col
    · simp [Board.placeSymbol, h]
    · by_cases he : b.isCellEmpty row col = true
      · have := (b.isCellEmpty_iff row col).1 he
        simp [Board.placeSymbol, h, he, this.2, Board.getEmptySymbol]
      · have hne : ¬ b.getCell row col = b.emptySymbol := fun hc =>
          he ((b.isCellEmpty_iff row col).2 ⟨h, hc⟩)
        simp [Board.placeSymbol, h, he, hne, Board.getEmptySymbol]
  · by_cases h : b.outOfRange row col
    · simp [Board.placeSymbol, h]
    · by_cases he : b.isCellEmpty row col = true
      · simp [Board.placeSymbol, h, he]
      · simp [Board.placeSymbol, h, he]
  · have h : b.outOfRange (-1) 0 := by unfold Board.outOfRange; omega
    simp [Board.placeSymbol, h]
  · have h : b.outOfRange b.getSize b.getSize := by
      unfold Board.outOfRange Board.getSize; omega
    simp [Board.placeSymbol, h]

/-- C4, as stated, fails when the first marker is the empty symbol of the board
itself: on the fresh 1×1 board (empty symbol at address 0) the cell (0,0) is in
bounds and empty, `placeSymbol(0, 0, getEmptySymbol())` returns true, and the
following `placeSymbol(0, 0, 1)` on the same cell returns true again and
leaves marker 1, not the first marker, in the cell. -/
theorem C4_counterexample_empty_symbol_placed :
    Board.new 1 0 = .ok blankBoard1 ∧
    blankBoard1.isCellEmpty 0 0 = true ∧
    (blankBoard1.placeSymbol 0 0 blankBoard1.getEmptySymbol).1 = true ∧
    ((blankBoard1.placeSymbol 0 0 blankBoard1.getEmptySymbol).2.placeSymbol 0 0 1).1 = true ∧
    ((blankBoard1.placeSymbol 0 0 blankBoard1.getEmptySymbol).2.placeSymbol 0 0 1).2.getCell 0 0
      ≠ blankBoard1.getEmptySymbol := by
  refine ⟨rfl, ?_, ?_, ?_, ?_⟩ <;> decide

/-- C4 (amended): for every board, every in-bounds empty cell `(row, col)`, every
marker `m1` other than the empty symbol of the board and every marker `m2`, the
first call `placeSymbol(row, col, m1)` returns true, the following call
`placeSymbol(row, col, m2)` returns false, and after both calls
`getCell(row, col)` equals `m1`. -/
theorem C4_place_twice (b : Board) (row col : Int) (m1 m2 : SymbolPtr)
    (hrow : 0 ≤ row ∧ row < b.getSize) (hcol : 0 ≤ col ∧ col < b.getSize)
    (hempty : b.isCellEmpty row col = true) (hm1 : m1 ≠ b.getEmptySymbol) :
    (b.placeSymbol row col m1).1 = true ∧
    ((b.placeSymbol row col m1).2.placeSymbol row col m2).1 = false ∧
    ((b.placeSymbol row col m1).2.placeSymbol row col m2).2.getCell row col = m1 := by
  have h : ¬ b.outOfRange row col := (b.outOfRange_iff row col).2 ⟨hrow.1, hrow.2, hcol.1, hcol.2⟩
  have hread : (b.assign row col m1 h).getCell row col = m1 := by
    rw [Board.getCell_assign]; simp
  have hfull : (b.assign row col m1 h).isCellEmpty row col = false := by
    apply Bool.eq_false_iff.2
    intro hc
    have := ((b.assign row col m1 h).isCellEmpty_iff row col).1 hc
    rw [hread] at this
    exact hm1 this.2
  rw [Board.placeSymbol_of_empty b h hempty]
  simp only [Board.placeSymbol_of_not_empty _ hfull, true_and]
  exact hread

/-- C4 (amended) at the centre of the fresh 3×3 board, X (address 1) placed
first and O (address 2) second. -/
theorem C4_place_twice_witness :
    (blankBoard3.placeSymbol 1 1 1).1 = true ∧
    ((blankBoard3.placeSymbol 1 1 1).2.placeSymbol 1 1 2).1 = false ∧
    ((blankBoard3.placeSymbol 1 1 1).2.placeSymbol 1 1 2).2.getCell 1 1 = 1 :=
  C4_place_twice blankBoard3 1 1 1 2 (by decide) (by decide) (by decide) (by decide)

/-- C5: for every size `n ≥ 1`, `Board(n)` succeeds, and the board it builds has
`getSize() == n` and, at every cell `(row, col)` with `0 ≤ row, col < n`,
`isCellEmpty(row, col)` true and `getCell(row, col)` equal to the empty symbol. -/
theorem C5_fresh_board_is_empty (n : Int) (fresh : SymbolPtr) (hn : 1 ≤ n) :
    ∃ b, Board.new n fresh = .ok b ∧ b.getSize = n ∧
      ∀ row col : Int, 0 ≤ row → row < n → 0 ≤ col → col < n →
        b.isCellEmpty row col = true ∧ b.getCell row col = b.getEmptySymbol := by
  obtain ⟨b, hb, hd, he, hcell⟩ := Board.new_ok n fresh (by omega)
  refine ⟨b, hb, hd, ?_⟩
  intro row col h0 h1 h2 h3
  have hin : ¬ b.outOfRange row col :=
    (b.outOfRange_iff row col).2 ⟨h0, by rw [Board.getSize, hd]; exact h1, h2,
      by rw [Board.getSize, hd]; exact h3⟩
  have hc : b.getCell row col = b.getEmptySymbol := by
    rw [hcell, Board.getEmptySymbol, he]
  exact ⟨(b.isCellEmpty_iff row col).2 ⟨hin, hc⟩, hc⟩

/-- C5 at `n = 3` with the empty symbol allocated at address 0. -/
theorem C5_fresh_board_is_empty_witness :
    ∃ b, Board.new 3 0 = .ok b ∧ b.getSize = 3 ∧
      ∀ row col : Int, 0 ≤ row → row < 3 → 0 ≤ col → col < 3 →
        b.isCellEmpty row col = true ∧ b.getCell row col = b.getEmptySymbol :=
  C5_fresh_board_is_empty 3 0 (by decide)

/-- C7, as stated, fails at `n = 0`: `Board(0)` succeeds and builds the board with
no rows, and so do `Game(0)` and `GameFactory::create(STANDARD, 0)`; on that
board no coordinate is a valid move. -/
theorem C7_counterexample_size_zero :
    Board.new 0 0 = .ok blankBoard0 ∧
    blankBoard0.getSize = 0 ∧
    Game.new 0 0 = .ok ⟨blankBoard0, [], [], false⟩ ∧
    GameFactory.create GameType.STANDARD 0 0 = .ok (some ⟨blankBoard0, [], [], false⟩) ∧
    (∀ row col : Int, StandardRules.isValidMove blankBoard0 row col = false) := by
  refine ⟨rfl, rfl, rfl, rfl, ?_⟩
  intro row col
  have hout : blankBoard0.outOfRange row col := by
    show row < 0 ∨ row ≥ 0 ∨ col < 0 ∨ col ≥ 0
    omega
  simp [StandardRules.isValidMove, Board.isCellEmpty, hout]

/-- C7 (amended): the source has no size check of its own.  For every `n < 0` the
construction of a `Board` of size `n` fails, with the `std::length_error` of
the vector constructor, and with it `Game(n)` and
`GameFactory::create(STANDARD, n)`.  (For `n = 0` the construction succeeds
and builds a board with no cells.) -/
theorem C7_negative_size_fails (n : Int) (fresh : SymbolPtr) (hn : n < 0) :
    Board.new n fresh = .error Exn.lengthError ∧
    Game.new n fresh = .error Exn.lengthError ∧
    GameFactory.create GameType.STANDARD n fresh = .error Exn.lengthError := by
  have hb : Board.new n fresh = .error Exn.lengthError := dif_pos hn
  have hg : Game.new n fresh = .error Exn.lengthError := by
    simp only [Game.new, hb]
  refine ⟨hb, hg, ?_⟩
  simp only [GameFactory.create, hg, if_true]

/-- C7 (amended) at `n = -1`. -/
theorem C7_negative_size_fails_witness :
    Board.new (-1) 0 = .error Exn.lengthError ∧
    Game.new (-1) 0 = .error Exn.lengthError ∧
    GameFactory.create GameType.STANDARD (-1) 0 = .error Exn.lengthError :=
  C7_negative_size_fails (-1) 0 (by decide)

/-- C8: `isValidMove(board, row, col)` equals `isCellEmpty(row, col)`, which is true
exactly when `0 ≤ row, col < n` and the cell holds the empty symbol; it is
false for every out-of-range coordinate and for every occupied cell. -/
theorem C8_isValidMove_is_isCellEmpty (b : Board) (row col : Int) :
    StandardRules.isValidMove b row col = b.isCellEmpty row col ∧
    (b.isCellEmpty row col = true ↔
      (0 ≤ row ∧ row < b.getSize ∧ 0 ≤ col ∧ col < b.getSize) ∧
        b.getCell row col = b.getEmptySymbol) ∧
    ((row < 0 ∨ row ≥ b.getSize ∨ col < 0 ∨ col ≥ b.getSize) →
      StandardRules.isValidMove b row col = false) ∧
    ((0 ≤ row ∧ row < b.getSize ∧ 0 ≤ col ∧ col < b.getSize) →
      b.getCell row col ≠ b.getEmptySymbol →
      StandardRules.isValidMove b row col = false) := by
  have hiff : b.isCellEmpty row col = true ↔
      (0 ≤ row ∧ row < b.getSize ∧ 0 ≤ col ∧ col < b.getSize) ∧
        b.getCell row col = b.getEmptySymbol := by
    rw [Board.isCellEmpty_iff, Board.outOfRange_iff]
    rfl
  refine ⟨rfl, hiff, ?_, ?_⟩
  · intro hout
    apply Bool.eq_false_iff.2
    intro hv
    have := (hiff.1 hv).1
    omega
  · intro _ hocc
    apply Bool.eq_false_iff.2
    intro hv
    exact hocc (hiff.1 hv).2

/-- C8 on the board with X in row 0: the occupied cell (0,0) and the coordinates
(-1,0) and (3,3) are no valid moves, the empty cell (1,1) is one. -/
theorem C8_isValidMove_is_isCellEmpty_witness :
    StandardRules.isValidMove rowXBoard 0 0 = false ∧
    StandardRules.isValidMove rowXBoard (-1) 0 = false ∧
    StandardRules.isValidMove rowXBoard 3 3 = false ∧
    StandardRules.isValidMove rowXBoard 1 1 = true :=
  ⟨(C8_isValidMove_is_isCellEmpty rowXBoard 0 0).2.2.2 (by decide) (by decide),
    (C8_isValidMove_is_isCellEmpty rowXBoard (-1) 0).2.2.1 (by decide),
    (C8_isValidMove_is_isCellEmpty rowXBoard 3 3).2.2.1 (by decide),
    ((C8_isValidMove_is_isCellEmpty rowXBoard 1 1).1).trans (by decide)⟩

/-- C9: for every `(row, col)` with `row < 0`, `row ≥ n`, `col < 0` or `col ≥ n`,
`getCell(row, col)` returns the empty symbol; for in-bounds coordinates the
row index is inside `grid`, the column index is inside that row, and `getCell`
returns the cell stored there.  (`getCell` is a total function: it returns a
symbol at every coordinate.) -/
theorem C9_getCell_bounds_checked (b : Board) (row col : Int) :
    ((row < 0 ∨ row ≥ b.getSize ∨ col < 0 ∨ col ≥ b.getSize) →
      b.getCell row col = b.getEmptySymbol) ∧
    ((0 ≤ row ∧ row < b.getSize ∧ 0 ≤ col ∧ col < b.getSize) →
      ∃ r, b.grid[row.toNat]? = some r ∧ r[col.toNat]? = some (b.getCell row col)) := by
  constructor
  · intro hout
    exact b.getCell_out hout
  · intro hin
    exact b.getCell_stored ((b.outOfRange_iff row col).2 hin)

/-- C9 on the board with X in row 0: reads outside the board give the empty
symbol 0, the read at (0,2) gives the stored X. -/
theorem C9_getCell_bounds_checked_witness :
    rowXBoard.getCell (-1) 0 = rowXBoard.getEmptySymbol ∧
    rowXBoard.getCell 0 3 = rowXBoard.getEmptySymbol ∧
    (∃ r, rowXBoard.grid[(0 : Int).toNat]? = some r ∧
      r[(2 : Int).toNat]? = some (rowXBoard.getCell 0 2)) ∧
    rowXBoard.getCell 0 2 = 1 :=
  ⟨(C9_getCell_bounds_checked rowXBoard (-1) 0).1 (by decide),
    (C9_getCell_bounds_checked rowXBoard 0 3).1 (by decide),
    (C9_getCell_bounds_checked rowXBoard 0 2).2 (by decide), by decide⟩

/-- C10: in an in-progress session with rotation `[p0, p1, ..., pk]`, a valid move
by `p0` after which `hasWinner` is false for the marker of `p0` and `isDraw` is
false leaves the rotation `[p1, ..., pk, p0]` and the session in progress: the
turn step returns a state with that rotation, and the loop of `play()` goes on
from it with the rest of the input. -/
theorem C10_rotation_after_non_terminal_move (w : World) (row col : Int) (p0 : PlayerPtr)
    (rest : List PlayerPtr) (input : List (Int × Int))
    (hprogress : w.game.finished = false)
    (hrot : w.game.players = p0 :: rest)
    (hvalid : StandardRules.isValidMove w.game.board row col = true)
    (hnowin : StandardRules.hasWinner
      (w.game.board.placeSymbol row col (w.playerAt p0).getSymbol).2
      (w.playerAt p0).getSymbol = false)
    (hnodraw : StandardRules.isDraw
      (w.game.board.placeSymbol row col (w.playerAt p0).getSymbol).2 = false) :
    ∃ w1, Game.turn w row col = some w1 ∧
      w1.game.players = rest ++ [p0] ∧
      w1.game.finished = false ∧
      Game.loop w ((row, col) :: input) = Game.loop w1 input := by
  have hturn : Game.turn w row col = some
      { (Game.notify
          { w with game := { w.game with
              board := (w.game.board.placeSymbol row col (w.playerAt p0).getSymbol).2 } }
          ((w.playerAt p0).getName ++ " played at (" ++ to_string row ++ "," ++
            to_string col ++ ").")) with
        game := { (Game.notify
          { w with game := { w.game with
              board := (w.game.board.placeSymbol row col (w.playerAt p0).getSymbol).2 } }
          ((w.playerAt p0).getName ++ " played at (" ++ to_string row ++ "," ++
            to_string col ++ ").")).game with players := rest ++ [p0] } } := by
    unfold Game.turn
    rw [hrot]
    simp only [hvalid, hnowin, hnodraw, if_true, Bool.false_eq_true, if_false]
  refine ⟨_, hturn, rfl, ?_, ?_⟩
  · simpa [Game.notify] using hprogress
  · simp only [Game.loop, hprogress, Bool.false_eq_true, if_false, hturn]

/-- C10 on the started 3×3 session of Henry (at address 10) and John (at
address 11): Henry plays the centre and the rotation becomes John, Henry. -/
theorem C10_rotation_after_non_terminal_move_witness :
    ∃ w1, Game.turn startedSession 1 1 = some w1 ∧
      w1.game.players = [11] ++ [10] ∧
      w1.game.finished = false ∧
      Game.loop startedSession ((1, 1) :: []) = Game.loop w1 [] :=
  C10_rotation_after_non_terminal_move startedSession 1 1 10 [11] []
    (by decide) (by decide) (by decide) (by decide) (by decide)

/-- C11: in an in-progress session, a move `(row, col)` that is out of bounds or
targets an occupied cell leaves the whole state as it was: the turn step
returns the very state it started from (board, rotation with the same player
at the front, every `Player` object and so every score, the finished flag, and
the `update` calls received so far, so no observer is notified), and the loop
goes on from that state with the rest of the input. -/
theorem C11_rejected_move_changes_nothing (w : World) (row col : Int) (p0 : PlayerPtr)
    (rest : List PlayerPtr) (input : List (Int × Int))
    (hprogress : w.game.finished = false)
    (hrot : w.game.players = p0 :: rest)
    (hbad : (row < 0 ∨ row ≥ w.game.board.getSize ∨ col < 0 ∨ col ≥ w.game.board.getSize) ∨
      w.game.board.getCell row col ≠ w.game.board.getEmptySymbol) :
    Game.turn w row col = some w ∧
    Game.loop w ((row, col) :: input) = Game.loop w input := by
  have hinvalid : StandardRules.isValidMove w.game.board row col = false := by
    apply Bool.eq_false_iff.2
    intro hv
    have hc := (w.game.board.isCellEmpty_iff row col).1 hv
    rcases hbad with hout | hocc
    · exact hc.1 hout
    · exact hocc hc.2
  have hturn := Game.turn_invalid w row col p0 rest hrot hinvalid
  refine ⟨hturn, ?_⟩
  simp only [Game.loop, hprogress, Bool.false_eq_true, if_false, hturn]

/-- C11 on the started session of Henry and John: the move (3,3) is out of
bounds. -/
theorem C11_rejected_move_changes_nothing_witness :
    Game.turn startedSession 3 3 = some startedSession ∧
    Game.loop startedSession ((3, 3) :: [(1, 1)]) = Game.loop startedSession [(1, 1)] :=
  C11_rejected_move_changes_nothing startedSession 3 3 10 [11] [(1, 1)]
    (by decide) (by decide) (Or.inl (by decide))

/-- C12: in an in-progress session, a valid move by the front player `p0` after
which `hasWinner` is true for the marker of `p0` ends the session as a win for
`p0`: the turn step returns a state with `finished` true, the score of `p0` one
higher, the `Player` object at every other address as it was, and the rotation
unchanged with `p0` at the front. -/
theorem C12_winning_move_ends_session (w : World) (row col : Int) (p0 : PlayerPtr)
    (rest : List PlayerPtr)
    (hprogress : w.game.finished = false)
    (hrot : w.game.players = p0 :: rest)
    (hvalid : StandardRules.isValidMove w.game.board row col = true)
    (hwin : StandardRules.hasWinner
      (w.game.board.placeSymbol row col (w.playerAt p0).getSymbol).2
      (w.playerAt p0).getSymbol = true) :
    ∃ w1, Game.turn w row col = some w1 ∧
      w.game.finished = false ∧ w1.game.finished = true ∧
      (w1.playerAt p0).getScore = (w.playerAt p0).getScore + 1 ∧
      (∀ q : PlayerPtr, q ≠ p0 → w1.playerAt q = w.playerAt q) ∧
      w1.game.players = p0 :: rest := by
  refine ⟨_, Game.turn_win w row col p0 rest hrot hvalid hwin, hprogress, rfl, ?_, ?_, hrot⟩
  · simp [Player.getScore, Player.incrementScore]
  · intro q hq
    simp [Function.update, hq]

/-- C12 on the session whose last empty cell completes the diagonal of Henry. -/
theorem C12_winning_move_ends_session_witness :
    ∃ w1, Game.turn lastCellWinSession 2 2 = some w1 ∧
      lastCellWinSession.game.finished = false ∧ w1.game.finished = true ∧
      (w1.playerAt 10).getScore = (lastCellWinSession.playerAt 10).getScore + 1 ∧
      (∀ q : PlayerPtr, q ≠ 10 → w1.playerAt q = lastCellWinSession.playerAt q) ∧
      w1.game.players = 10 :: [11] :=
  C12_winning_move_ends_session lastCellWinSession 2 2 10 [11]
    (by decide) (by decide) (by decide) (by decide)

/-- C13: in an in-progress session, a valid move ends the session as a draw
(`finished` set, no `Player` object and so no score changed, the move and the
draw notified) exactly when after the move `hasWinner` is false for the marker
of the acting player and `isDraw` is true.  The winner check comes first: when
the move makes both `hasWinner` and `isDraw` true, the session ends as a win
(`finished` set, the score of the acting player one higher, the move and the
win notified). -/
theorem C13_draw_iff_no_winner_and_full (w : World) (row col : Int) (p0 : PlayerPtr)
    (rest : List PlayerPtr)
    (hprogress : w.game.finished = false)
    (hrot : w.game.players = p0 :: rest)
    (hvalid : StandardRules.isValidMove w.game.board row col = true) :
    ∃ w1, Game.turn w row col = some w1 ∧
      ((w1.game.finished = true ∧ w1.playerAt = w.playerAt ∧
          w1.updates = w.updates ++ broadcast w.game.observers
            [playedMessage (w.playerAt p0).getName row col, drawMessage]) ↔
        (StandardRules.hasWinner
            (w.game.board.placeSymbol row col (w.playerAt p0).getSymbol).2
            (w.playerAt p0).getSymbol = false ∧
          StandardRules.isDraw
            (w.game.board.placeSymbol row col (w.playerAt p0).getSymbol).2 = true)) ∧
      (StandardRules.hasWinner
            (w.game.board.placeSymbol row col (w.playerAt p0).getSymbol).2
            (w.playerAt p0).getSymbol = true →
        StandardRules.isDraw
            (w.game.board.placeSymbol row col (w.playerAt p0).getSymbol).2 = true →
        w1.game.finished = true ∧
        (w1.playerAt p0).getScore = (w.playerAt p0).getScore + 1 ∧
        w1.updates = w.updates ++ broadcast w.game.observers
          [playedMessage (w.playerAt p0).getName row col,
            wonMessage (w.playerAt p0).getName]) := by
  cases hw : StandardRules.hasWinner (movedBoard w p0 row col) (w.playerAt p0).getSymbol with
  | true =>
    refine ⟨_, Game.turn_win w row col p0 rest hrot hvalid hw, ?_, ?_⟩
    · have hw2 : StandardRules.hasWinner
          (w.game.board.placeSymbol row col (w.playerAt p0).getSymbol).2
          (w.playerAt p0).getSymbol = true := hw
      constructor
      · rintro ⟨_, hsame, _⟩
        have hscore := congrArg (fun f => (f p0).score) hsame
        simp [Player.incrementScore] at hscore
      · rintro ⟨hno, _⟩
        rw [hw2] at hno
        exact absurd hno (by decide)
    · intro _ _
      exact ⟨rfl, by simp [Player.getScore, Player.incrementScore], rfl⟩
  | false =>
    have hw2 : StandardRules.hasWinner
        (w.game.board.placeSymbol row col (w.playerAt p0).getSymbol).2
        (w.playerAt p0).getSymbol = false := hw
    cases hd : StandardRules.isDraw (movedBoard w p0 row col) with
    | true =>
      have hd2 : StandardRules.isDraw
          (w.game.board.placeSymbol row col (w.playerAt p0).getSymbol).2 = true := hd
      refine ⟨_, Game.turn_draw w row col p0 rest hrot hvalid hw hd, ?_, ?_⟩
      · exact ⟨fun _ => ⟨hw2, hd2⟩, fun _ => ⟨rfl, rfl, rfl⟩⟩
      · intro hwin
        rw [hw2] at hwin
        exact absurd hwin (by decide)
    | false =>
      have hd2 : StandardRules.isDraw
          (w.game.board.placeSymbol row col (w.playerAt p0).getSymbol).2 = false := hd
      refine ⟨_, Game.turn_next w row col p0 rest hrot hvalid hw hd, ?_, ?_⟩
      · constructor
        · rintro ⟨hfin, _, _⟩
          have hfin2 : w.game.finished = true := hfin
          rw [hprogress] at hfin2
          exact absurd hfin2 (by decide)
        · rintro ⟨_, hdr⟩
          rw [hd2] at hdr
          exact absurd hdr (by decide)
      · intro hwin
        rw [hw2] at hwin
        exact absurd hwin (by decide)

/-- C13 on the session whose last empty cell completes no line: the move (2,2)
of Henry ends it as a draw. -/
theorem C13_draw_iff_no_winner_and_full_witness :
    ∃ w1, Game.turn lastCellDrawSession 2 2 = some w1 ∧
      ((w1.game.finished = true ∧ w1.playerAt = lastCellDrawSession.playerAt ∧
          w1.updates = lastCellDrawSession.updates ++
            broadcast lastCellDrawSession.game.observers
              [playedMessage (lastCellDrawSession.playerAt 10).getName 2 2, drawMessage]) ↔
        (StandardRules.hasWinner
            (lastCellDrawSession.game.board.placeSymbol 2 2
              (lastCellDrawSession.playerAt 10).getSymbol).2
            (lastCellDrawSession.playerAt 10).getSymbol = false ∧
          StandardRules.isDraw
            (lastCellDrawSession.game.board.placeSymbol 2 2
              (lastCellDrawSession.playerAt 10).getSymbol).2 = true)) ∧
      (StandardRules.hasWinner
            (lastCellDrawSession.game.board.placeSymbol 2 2
              (lastCellDrawSession.playerAt 10).getSymbol).2
            (lastCellDrawSession.playerAt 10).getSymbol = true →
        StandardRules.isDraw
            (lastCellDrawSession.game.board.placeSymbol 2 2
              (lastCellDrawSession.playerAt 10).getSymbol).2 = true →
        w1.game.finished = true ∧
        (w1.playerAt 10).getScore = (lastCellDrawSession.playerAt 10).getScore + 1 ∧
        w1.updates = lastCellDrawSession.updates ++
          broadcast lastCellDrawSession.game.observers
            [playedMessage (lastCellDrawSession.playerAt 10).getName 2 2,
              wonMessage (lastCellDrawSession.playerAt 10).getName]) :=
  C13_draw_iff_no_winner_and_full lastCellDrawSession 2 2 10 [11]
    (by decide) (by decide) (by decide)

/-- C14: with fewer than 2 registered players `play()` returns at once: it reads
no move, makes no `update` call, and leaves the board, the rotation, every
`Player` object and the finished flag as they were. -/
theorem C14_play_refused_below_two_players (w : World) (input : List (Int × Int))
    (hfew : w.game.players.length < 2) :
    Game.play w input = some (w, input) := by
  simp [Game.play, hfew]

/-- C14 on the session with Henry alone. -/
theorem C14_play_refused_below_two_players_witness :
    Game.play lonelySession [(0, 0), (1, 1)] = some (lonelySession, [(0, 0), (1, 1)]) :=
  C14_play_refused_below_two_players lonelySession [(0, 0), (1, 1)] (by decide)

/-- C15: on the fresh 3×3 session of `main` (`Game(3)`, then Henry with X and
John with O registered in that order), `play()` fed the moves (0,0), (1,1),
(0,1), (2,2), (0,2) and then any further input ends as a win for Henry:
`finished` is true, the score of Henry is 1 and of John 0, Henry is still at
the front of the rotation, the board holds the five moves, and the further
input is left unread. -/
theorem C15_scenario_win_for_first_player (more : List (Int × Int)) :
    Game.new 3 0 = .ok freshGame3 ∧
    freshSession.game.players = [10, 11] ∧
    ∃ w1, Game.play freshSession ([(0, 0), (1, 1), (0, 1), (2, 2), (0, 2)] ++ more)
        = some (w1, more) ∧
      w1.game.finished = true ∧
      (w1.playerAt 10).getScore = 1 ∧ (w1.playerAt 11).getScore = 0 ∧
      w1.game.players = [10, 11] ∧
      w1.game.board.grid = [[1, 1, 1], [0, 2, 0], [0, 0, 2]] := by
  refine ⟨rfl, rfl, ?_⟩
  have hd : (Game.loop (Game.notify freshSession "Game started.")
        [(0, 0), (1, 1), (0, 1), (2, 2), (0, 2)]).map
      (fun r => (r.1.game.finished, (r.1.playerAt 10).getScore, (r.1.playerAt 11).getScore,
        r.1.game.players, r.1.game.board.grid, r.2))
      = some (true, 1, 0, [10, 11], [[1, 1, 1], [0, 2, 0], [0, 0, 2]], []) := by
    rfl
  rw [Game.play_eq_loop _ _ (by decide)]
  cases hl : Game.loop (Game.notify freshSession "Game started.")
      [(0, 0), (1, 1), (0, 1), (2, 2), (0, 2)] with
  | none =>
    rw [hl] at hd
    exact absurd hd (by simp)
  | some r =>
    obtain ⟨w1, left⟩ := r
    rw [hl] at hd
    simp only [Option.map_some', Option.some.injEq, Prod.mk.injEq] at hd
    obtain ⟨hfin, hs1, hs2, hp, hg, hleft⟩ := hd
    have hleft2 : left = [] := hleft
    subst hleft2
    exact ⟨w1, Game.loop_append_finished _ more _ w1 hl hfin, hfin, hs1, hs2, hp, hg⟩

/-- C16: once the finished flag of a session is true, the turn loop reads no
further move and returns the state it was given, for every remaining input;
and a repeated call of `play()` on the finished session reads no move either
and leaves the `Game` object (board, rotation, finished flag) and every
`Player` object, so every score, as they were. -/
theorem C16_finished_is_terminal (w : World) (input : List (Int × Int))
    (hfin : w.game.finished = true) :
    Game.loop w input = some (w, input) ∧
    ∃ w1, Game.play w input = some (w1, input) ∧
      w1.game = w.game ∧ w1.playerAt = w.playerAt := by
  refine ⟨Game.loop_finished w input hfin, ?_⟩
  by_cases hfew : w.game.players.length < 2
  · exact ⟨w, by simp [Game.play, hfew], rfl, rfl⟩
  · refine ⟨Game.notify w "Game started.", ?_, rfl, rfl⟩
    rw [Game.play_eq_loop w input (by omega)]
    exact Game.loop_finished _ input hfin

/-- C16 on the session Henry has won: the moves (1,0) and (2,0), both on empty
cells, are not read. -/
theorem C16_finished_is_terminal_witness :
    Game.loop wonSession [(1, 0), (2, 0)] = some (wonSession, [(1, 0), (2, 0)]) ∧
    ∃ w1, Game.play wonSession [(1, 0), (2, 0)] = some (w1, [(1, 0), (2, 0)]) ∧
      w1.game = wonSession.game ∧ w1.playerAt = wonSession.playerAt :=
  C16_finished_is_terminal wonSession [(1, 0), (2, 0)] (by decide)

/-- C18: for every board, every in-bounds empty cell `(row, col)` and every
marker `m`, `placeSymbol(row, col, m)` returns true, and on the board after the
call `getCell(row, col)` equals `m`, `getCell(r, c)` is what it was at every
other coordinate, and `getSize()` and the empty symbol are what they were. -/
theorem C18_placeSymbol_frame (b : Board) (row col : Int) (m : SymbolPtr)
    (hrow : 0 ≤ row ∧ row < b.getSize) (hcol : 0 ≤ col ∧ col < b.getSize)
    (hempty : b.isCellEmpty row col = true) :
    (b.placeSymbol row col m).1 = true ∧
    (b.placeSymbol row col m).2.getCell row col = m ∧
    (∀ r c : Int, (r, c) ≠ (row, col) →
      (b.placeSymbol row col m).2.getCell r c = b.getCell r c) ∧
    (b.placeSymbol row col m).2.getSize = b.getSize ∧
    (b.placeSymbol row col m).2.getEmptySymbol = b.getEmptySymbol := by
  have h : ¬ b.outOfRange row col :=
    (b.outOfRange_iff row col).2 ⟨hrow.1, hrow.2, hcol.1, hcol.2⟩
  rw [Board.placeSymbol_of_empty b h hempty]
  refine ⟨rfl, ?_, ?_, rfl, rfl⟩
  · show (b.assign row col m h).getCell row col = m
    rw [Board.getCell_assign]
    simp
  · intro r c hne
    show (b.assign row col m h).getCell r c = b.getCell r c
    rw [Board.getCell_assign]
    have : ¬ (r = row ∧ c = col) := by
      rintro ⟨rfl, rfl⟩
      exact hne rfl
    simp [this]

/-- C18 on the board with X in row 0: O placed at the centre. -/
theorem C18_placeSymbol_frame_witness :
    (rowXBoard.placeSymbol 1 1 2).1 = true ∧
    (rowXBoard.placeSymbol 1 1 2).2.getCell 1 1 = 2 ∧
    (∀ r c : Int, (r, c) ≠ (1, 1) →
      (rowXBoard.placeSymbol 1 1 2).2.getCell r c = rowXBoard.getCell r c) ∧
    (rowXBoard.placeSymbol 1 1 2).2.getSize = rowXBoard.getSize ∧
    (rowXBoard.placeSymbol 1 1 2).2.getEmptySymbol = rowXBoard.getEmptySymbol :=
  C18_placeSymbol_frame rowXBoard 1 1 2 (by decide) (by decide) (by decide)

/-- C17, as stated, fails for an observer registered twice: in the session of
`main` with the observer at address 20 added twice, `play()` fed the move (0,0)
makes that observer receive "Game started." twice and the "played" message of
the one accepted move twice, not once each. -/
theorem C17_counterexample_observer_registered_twice :
    twiceObservedSession.game.observers = [20, 20] ∧
    2 ≤ twiceObservedSession.game.players.length ∧
    transcript twiceObservedSession [(0, 0)] = ["Henry played at (0,0)."] ∧
    (Game.play twiceObservedSession [(0, 0)]).map (fun r => received r.1.updates 20)
      = some ["Game started.", "Game started.",
          "Henry played at (0,0).", "Henry played at (0,0)."] ∧
    (Game.play twiceObservedSession [(0, 0)]).map (fun r => received r.1.updates 20)
      ≠ some ("Game started." :: transcript twiceObservedSession [(0, 0)]) := by
  refine ⟨by decide, by decide, by decide, by decide, by decide⟩

/-- C17 (amended): for a run of `play()` with at least 2 players on a finite
input, the `update` calls made are the messages "Game started." followed by
the transcript of the run (one "played" message for each accepted move in
order, naming the acting player and the coordinates, nothing for a rejected
move, and right after the move that ends the session the one "won" or "draw"
message), each message delivered once to every registration in the
`observers` vector, in registration order, before the next message.  So an
observer receives every message as many times in a row as it is registered,
and an observer registered once receives exactly these messages, each once,
in this order. -/
theorem C17_each_registration_receives_the_transcript (w : World)
    (input : List (Int × Int)) (htwo : 2 ≤ w.game.players.length) :
    ∃ w1 rest, Game.play w input = some (w1, rest) ∧
      w1.game.observers = w.game.observers ∧
      w1.updates = w.updates ++
        broadcast w.game.observers ("Game started." :: transcript w input) ∧
      (∀ obs : ObserverPtr,
        received w1.updates obs
          = received w.updates obs ++
            repeatEach (w.game.observers.count obs)
              ("Game started." :: transcript w input)) ∧
      (∀ obs : ObserverPtr, w.game.observers.count obs = 1 →
        received w1.updates obs
          = received w.updates obs ++ ("Game started." :: transcript w input)) := by
  have hne : (Game.notify w "Game started.").game.players ≠ [] := by
    intro h
    have h2 : w.game.players = [] := h
    rw [h2] at htwo
    simp at htwo
  obtain ⟨w1, rest, hl, ho, hu⟩ := Game.loop_updates input (Game.notify w "Game started.") hne
  have htr : transcript (Game.notify w "Game started.") input = transcript w input :=
    Game.transcript_congr input _ _ rfl rfl
  have hupd : w1.updates = w.updates ++
      broadcast w.game.observers ("Game started." :: transcript w input) := by
    rw [hu, htr, Game.notify_eq]
    show (w.updates ++ broadcast w.game.observers ["Game started."]) ++
        broadcast w.game.observers (transcript w input) = _
    rw [List.append_assoc, ← Game.broadcast_append]
    rfl
  refine ⟨w1, rest, by rw [Game.play_eq_loop w input htwo, hl], ho, hupd, ?_, ?_⟩
  · intro obs
    rw [hupd, Game.received_append, Game.received_broadcast_count]
  · intro obs honce
    rw [hupd, Game.received_append, Game.received_broadcast _ _ obs honce]

/-- C17 (amended) on the session with the observer at address 20 registered
twice, for an input with a rejected move (5,5) and a move (2,0) after the end:
the messages of the run, and each of them twice in a row for that observer. -/
theorem C17_each_registration_receives_the_transcript_witness :
    (∃ w1 rest,
      Game.play twiceObservedSession
          [(0, 0), (5, 5), (1, 1), (0, 1), (2, 2), (0, 2), (2, 0)]
        = some (w1, rest) ∧
      w1.game.observers = twiceObservedSession.game.observers ∧
      w1.updates = twiceObservedSession.updates ++
        broadcast twiceObservedSession.game.observers ("Game started." ::
          transcript twiceObservedSession
            [(0, 0), (5, 5), (1, 1), (0, 1), (2, 2), (0, 2), (2, 0)]) ∧
      (∀ obs : ObserverPtr,
        received w1.updates obs
          = received twiceObservedSession.updates obs ++
            repeatEach (twiceObservedSession.game.observers.count obs)
              ("Game started." :: transcript twiceObservedSession
                [(0, 0), (5, 5), (1, 1), (0, 1), (2, 2), (0, 2), (2, 0)])) ∧
      (∀ obs : ObserverPtr, twiceObservedSession.game.observers.count obs = 1 →
        received w1.updates obs
          = received twiceObservedSession.updates obs ++ ("Game started." ::
            transcript twiceObservedSession
              [(0, 0), (5, 5), (1, 1), (0, 1), (2, 2), (0, 2), (2, 0)]))) ∧
    transcript twiceObservedSession [(0, 0), (5, 5), (1, 1), (0, 1), (2, 2), (0, 2), (2, 0)]
      = ["Henry played at (0,0).", "John played at (1,1).", "Henry played at (0,1).",
          "John played at (2,2).", "Henry played at (0,2).", "Henry has won the game."] ∧
    twiceObservedSession.game.observers.count 20 = 2 :=
  ⟨C17_each_registration_receives_the_transcript twiceObservedSession
      [(0, 0), (5, 5), (1, 1), (0, 1), (2, 2), (0, 2), (2, 0)] (by decide),
    by decide, by decide⟩

/-- C19: from a fresh `n × n` board (`n ≥ 1`) with at least 2 players whose
markers are distinct from the empty symbol, the run of `play()` on every
finite input reaches a state, and in that state (so in every state of the run,
which is the state reached on a shorter input), while the session is not finished `hasWinner` is
false for the marker of every registered player; the registered players
are the players of the rotation.  (That the markers are pairwise distinct is
not needed.) -/
theorem C19_no_winner_while_in_progress (n : Int) (fresh : SymbolPtr) (w : World)
    (input : List (Int × Int))
    (hn : 1 ≤ n)
    (hboard : Board.new n fresh = .ok w.game.board)
    (htwo : 2 ≤ w.game.players.length)
    (hmarkers : ∀ q ∈ w.game.players, (w.playerAt q).getSymbol ≠ fresh) :
    ∃ w1 rest, Game.play w input = some (w1, rest) ∧
      (∀ q, q ∈ w1.game.players ↔ q ∈ w.game.players) ∧
      (∀ q, (w1.playerAt q).getSymbol = (w.playerAt q).getSymbol) ∧
      (w1.game.finished = false →
        ∀ q ∈ w.game.players,
          StandardRules.hasWinner w1.game.board (w.playerAt q).getSymbol = false) := by
  obtain ⟨b, hb, hd, he, hcells⟩ := Board.new_ok n fresh (by omega)
  have hbw : w.game.board = b := by
    rw [hb] at hboard
    exact (Except.ok.inj hboard).symm
  have hInv0 : noWinnerInv w (Game.notify w "Game started.") := by
    refine ⟨fun q => Iff.rfl, fun q => rfl, ?_, ?_⟩
    · intro h
      have h2 : w.game.players = [] := h
      rw [h2] at htwo
      simp at htwo
    · intro _ q hq
      show StandardRules.hasWinner w.game.board (w.playerAt q).getSymbol = false
      rw [hbw]
      exact Board.hasWinner_blank b fresh _ (by rw [Board.getSize, hd]; exact hn) hcells
        (hmarkers q hq)
  have hstep : ∀ v row col v1, noWinnerInv w v → v.game.finished = false →
      Game.turn v row col = some v1 → noWinnerInv w v1 := by
    intro v row col v1 hv hprogress ht
    obtain ⟨hvmem, hvsym, hvne, hvno⟩ := hv
    obtain ⟨p0, others, hrot⟩ := List.exists_cons_of_ne_nil hvne
    rcases Game.turn_cases v row col p0 others hrot with
      ⟨_, ht2⟩ | ⟨_, _, ht2⟩ | ⟨_, _, _, ht2⟩ | ⟨hvalid, hw, _, ht2⟩
    · rw [ht2] at ht
      rw [← Option.some.inj ht]
      exact ⟨hvmem, hvsym, hvne, hvno⟩
    · rw [ht2] at ht
      rw [← Option.some.inj ht]
      refine ⟨hvmem, ?_, hvne, ?_⟩
      · intro q
        rw [← hvsym q]
        by_cases hq : q = p0
        · subst hq
          simp [afterWin, Player.getSymbol, Player.incrementScore]
        · simp [afterWin, Function.update, hq]
      · intro hf
        exact absurd hf (by simp [afterWin])
    · rw [ht2] at ht
      rw [← Option.some.inj ht]
      refine ⟨hvmem, hvsym, hvne, ?_⟩
      intro hf
      exact absurd hf (by simp [afterDraw])
    · rw [ht2] at ht
      rw [← Option.some.inj ht]
      have hmem2 : ∀ q, q ∈ others ++ [p0] ↔ q ∈ v.game.players := by
        intro q
        rw [hrot]
        simp only [List.mem_append, List.mem_singleton, List.mem_cons]
        tauto
      refine ⟨fun q => (hmem2 q).trans (hvmem q), hvsym, by simp [afterNext], ?_⟩
      intro _ q hq
      have hq2 : q ∈ v.game.players := (hmem2 q).1 hq
      show StandardRules.hasWinner (movedBoard v p0 row col) (v.playerAt q).getSymbol = false
      by_cases hsame : (v.playerAt q).getSymbol = (v.playerAt p0).getSymbol
      · rw [hsame]
        exact hw
      · apply Bool.eq_false_iff.2
        intro hwq
        obtain ⟨h, _, hmb⟩ := Game.movedBoard_valid v p0 row col hvalid
        rw [hmb] at hwq
        have hold := Board.hasWinner_of_assign v.game.board h _ _ hsame hwq
        rw [hvno hprogress q hq2] at hold
        exact absurd hold (by decide)
  obtain ⟨w1, rest, hl, hmem, hsym, _, hno⟩ :=
    Game.loop_invariant (noWinnerInv w) (fun v hv => hv.2.2.1) hstep input _ hInv0
  refine ⟨w1, rest, by rw [Game.play_eq_loop w input htwo, hl], hmem, hsym, ?_⟩
  intro hf q hq
  rw [← hsym q]
  exact hno hf q ((hmem q).2 hq)

/-- C19 on the fresh 3×3 session of `main` and four moves. -/
theorem C19_no_winner_while_in_progress_witness :
    ∃ w1 rest, Game.play freshSession [(0, 0), (1, 1), (0, 1), (2, 2)] = some (w1, rest) ∧
      (∀ q, q ∈ w1.game.players ↔ q ∈ freshSession.game.players) ∧
      (∀ q, (w1.playerAt q).getSymbol = (freshSession.playerAt q).getSymbol) ∧
      (w1.game.finished = false →
        ∀ q ∈ freshSession.game.players,
          StandardRules.hasWinner w1.game.board (freshSession.playerAt q).getSymbol
            = false) :=
  C19_no_winner_while_in_progress 3 0 freshSession [(0, 0), (1, 1), (0, 1), (2, 2)]
    (by decide) rfl (by decide) (by decide)

/-- C20: from a fresh `n × n` board (`n ≥ 1`) with at least 2 players whose
markers are distinct from the empty symbol, the run of `play()` on every
finite input reaches a state, and in that state the number of non-empty cells equals the number
of accepted moves; that number is at most `n * n`, and when it is `n * n` the
session is finished (by a win or a draw).  So the turn loop changes the state
in at most `n * n` iterations. -/
theorem C20_bounded_game_length (n : Int) (fresh : SymbolPtr) (w : World)
    (input : List (Int × Int))
    (hn : 1 ≤ n)
    (hboard : Board.new n fresh = .ok w.game.board)
    (htwo : 2 ≤ w.game.players.length)
    (hmarkers : ∀ q ∈ w.game.players, (w.playerAt q).getSymbol ≠ fresh) :
    ∃ w1 rest, Game.play w input = some (w1, rest) ∧
      w1.game.board.occupied = acceptedMoves w input ∧
      acceptedMoves w input ≤ n.toNat * n.toNat ∧
      (acceptedMoves w input = n.toNat * n.toNat → w1.game.finished = true) := by
  obtain ⟨b, hb, hd, he, hcells⟩ := Board.new_ok n fresh (by omega)
  have hbw : w.game.board = b := by
    rw [hb] at hboard
    exact (Except.ok.inj hboard).symm
  have hblank : w.game.board.occupied = 0 := by
    rw [hbw]
    exact Board.occupied_blank b (fun row col => by rw [hcells, he])
  have hpos : 0 < n.toNat * n.toNat := by
    have : 0 < n.toNat := by omega
    exact Nat.mul_pos this this
  have hinv : boundedInv n fresh (Game.notify w "Game started.") := by
    refine ⟨?_, ?_, ?_, hmarkers, ?_⟩
    · show w.game.board.getSize = n
      rw [hbw, Board.getSize, hd]
    · show w.game.board.emptySymbol = fresh
      rw [hbw, he]
    · intro h
      have h2 : w.game.players = [] := h
      rw [h2] at htwo
      simp at htwo
    · intro hall
      have hall2 : w.game.board.occupied = n.toNat * n.toNat := hall
      omega
  obtain ⟨w1, rest, hl, hinv1, hocc⟩ :=
    Game.loop_occupied n fresh input (Game.notify w "Game started.") hinv
  have hacc : acceptedMoves (Game.notify w "Game started.") input = acceptedMoves w input :=
    Game.acceptedMoves_congr input _ _ rfl rfl
  have hocc2 : w1.game.board.occupied = acceptedMoves w input := by
    rw [hocc, hacc]
    show w.game.board.occupied + _ = _
    rw [hblank]
    omega
  obtain ⟨hsize1, _, _, _, hfull1⟩ := hinv1
  refine ⟨w1, rest, by rw [Game.play_eq_loop w input htwo, hl], hocc2, ?_, ?_⟩
  · rw [← hocc2]
    have := Board.occupied_le w1.game.board
    rw [hsize1] at this
    exact this
  · intro hall
    exact hfull1 (by rw [hocc2]; exact hall)

/-- C20 on the fresh 3×3 session of `main`, for an input with two rejected
moves: five moves are accepted and five cells are occupied. -/
theorem C20_bounded_game_length_witness :
    (∃ w1 rest,
      Game.play freshSession [(0, 0), (0, 0), (1, 1), (0, 1), (7, 7), (2, 2), (0, 2)]
        = some (w1, rest) ∧
      w1.game.board.occupied
        = acceptedMoves freshSession [(0, 0), (0, 0), (1, 1), (0, 1), (7, 7), (2, 2), (0, 2)] ∧
      acceptedMoves freshSession [(0, 0), (0, 0), (1, 1), (0, 1), (7, 7), (2, 2), (0, 2)]
        ≤ (3 : Int).toNat * (3 : Int).toNat ∧
      (acceptedMoves freshSession [(0, 0), (0, 0), (1, 1), (0, 1), (7, 7), (2, 2), (0, 2)]
        = (3 : Int).toNat * (3 : Int).toNat → w1.game.finished = true)) ∧
    acceptedMoves freshSession [(0, 0), (0, 0), (1, 1), (0, 1), (7, 7), (2, 2), (0, 2)] = 5 :=
  ⟨C20_bounded_game_length 3 0 freshSession
      [(0, 0), (0, 0), (1, 1), (0, 1), (7, 7), (2, 2), (0, 2)]
      (by decide) rfl (by decide) (by decide), by decide⟩

end TicTacToe
